import Mathlib

/-!
# Verification of the x-quote-rt-bot curation and dispatch pipeline

A shallow embedding, in Lean 4, of the pure cores of the repository's
components, with theorems settling the specification's claims about them:

* `src/collect/tweet_parser.py`   — URL parsing / payload normalisation
* `src/collect/queue_manager.py`  — the candidate queue state machine
* `src/collect/preference_scorer.py` — the preference scorer
* `src/post/safety_checker.py`    — the pre-publication safety gate
* `src/post/mix_planner.py`       — the daily slot planner
* `src/pdca/preference_updater.py`— the PDCA preference updater

Modelling conventions:
* Python floats are modelled as rationals (`ℚ`); `round(x, n)` is modelled
  as rounding `x·10^n` to the nearest integer.
* Python dicts holding JSON data are modelled as structures of `Option`
  fields (a `none` field is an absent key) or as association lists in
  insertion order (Python dicts preserve insertion order).
* Clock reads (`datetime.now(JST)`) are passed in as explicit `now`/`today`
  string parameters.
* File I/O (atomic save / backup fallback) is out of the pure core: the two
  queue files and the feedback file are modelled as in-memory lists held in
  a `QueueState`, and each operation is a pure state transformer.
-/

/-- The `round(x, n)` of Python, on rationals: round `x·10^n` to the nearest
integer (ties differ from Python's bankers' rounding only on exact halves,
which none of the claims exercise). -/
def roundTo (n : ℕ) (q : ℚ) : ℚ := (round (q * 10 ^ n) : ℤ) / 10 ^ n

section ListHelpers

variable {α : Type} (p : α → Bool)

/-- The `takeWhile` runs through a block that wholly satisfies `p` and stops at
the first failing element. -/
theorem takeWhile_append_pos_neg (l₁ : List α) (c : α) (l₂ : List α)
    (h1 : ∀ x ∈ l₁, p x = true) (hc : p c = false) :
    (l₁ ++ c :: l₂).takeWhile p = l₁ := by
  induction l₁ with
  | nil => simp [List.takeWhile, hc]
  | cons a t ih =>
    have ha : p a = true := h1 a (by simp)
    simp only [List.cons_append, List.takeWhile, ha, List.append_eq]
    rw [ih (fun x hx => h1 x (by simp [hx]))]

/-- The `dropWhile` drops a block that wholly satisfies `p` and stops at the
first failing element. -/
theorem dropWhile_append_pos_neg (l₁ : List α) (c : α) (l₂ : List α)
    (h1 : ∀ x ∈ l₁, p x = true) (hc : p c = false) :
    (l₁ ++ c :: l₂).dropWhile p = c :: l₂ := by
  induction l₁ with
  | nil => simp [List.dropWhile, hc]
  | cons a t ih =>
    have ha : p a = true := h1 a (by simp)
    simp only [List.cons_append, List.dropWhile, ha, List.append_eq]
    exact ih (fun x hx => h1 x (by simp [hx]))

/-- The `takeWhile` of an everywhere-satisfying list is the list itself. -/
theorem takeWhile_all (l : List α) (h : ∀ x ∈ l, p x = true) :
    l.takeWhile p = l := by
  induction l with
  | nil => rfl
  | cons a t ih =>
    have ha : p a = true := h a (by simp)
    simp only [List.takeWhile, ha]
    rw [ih (fun x hx => h x (by simp [hx]))]

end ListHelpers

/-! ## Tweet Normalizer (`src/collect/tweet_parser.py`) -/

namespace TweetParse

/-- Python's `\w` on the ASCII range: letters, digits, underscore
(the repository's usernames are ASCII). -/
def isWordChar (c : Char) : Bool := c.isAlphanum || c = '_'

/-- Match a literal character sequence at the head of the input, returning
the rest on success (the literal fragments of a regex pattern). -/
def expectStr : List Char → List Char → Option (List Char)
  | [], rest => some rest
  | _ :: _, [] => none
  | c :: cs, d :: ds => if d = c then expectStr cs ds else none

/-- The shared tail of each URL pattern: `(\w+)/status/(\d+)`, with the
first capture a maximal nonempty word-character run and the second a
maximal nonempty digit run (trailing input is ignored, as `re.match`
does not anchor the end). -/
def parseUserStatusId (rest : List Char) : Option (List Char × List Char) :=
  let u := rest.takeWhile isWordChar
  if u.isEmpty then none
  else
    match expectStr "/status/".data (rest.dropWhile isWordChar) with
    | none => none
    | some r2 =>
      let d := r2.takeWhile Char.isDigit
      if d.isEmpty then none else some (u, d)

/-- The `https?://` — the scheme prefix common to all three URL patterns. -/
def parseScheme (l : List Char) : Option (List Char) :=
  match expectStr "https://".data l with
  | some r => some r
  | none => expectStr "http://".data l

/-- Try each host alternative of one pattern in order (the alternatives of
each source regex start with distinct characters, so first-match is
faithful to the regex's backtracking). -/
def tryHosts : List (List Char) → List Char → Option (List Char × List Char)
  | [], _ => none
  | h :: hs, r =>
    match expectStr (h ++ ['/']) r with
    | some r2 => parseUserStatusId r2
    | none => tryHosts hs r

/-- One `URL_PATTERNS` entry: scheme, then one of the pattern's hosts,
then `(\w+)/status/(\d+)`. -/
def matchPat (hosts : List (List Char)) (l : List Char) :
    Option (List Char × List Char) :=
  match parseScheme l with
  | none => none
  | some r => tryHosts hosts r

/-- Python `str.strip()`: remove leading and trailing whitespace. -/
def stripChars (l : List Char) : List Char :=
  (((l.dropWhile Char.isWhitespace).reverse.dropWhile Char.isWhitespace).reverse)

/-- The `TweetParser.parse_url`: strip, drop the query string, then try the
three URL patterns in order. -/
def parse_url (url : List Char) : Option (List Char × List Char) :=
  let s := stripChars url
  let clean := s.takeWhile (fun c => c ≠ '?')
  match matchPat ["x.com".data, "twitter.com".data] clean with
  | some r => some r
  | none =>
    match matchPat ["mobile.x.com".data, "mobile.twitter.com".data] clean with
    | some r => some r
    | none => matchPat ["vxtwitter.com".data, "fxtwitter.com".data] clean

/-- The `TweetParser.build_url`: `https://x.com/{username}/status/{tweet_id}`. -/
def build_url (username tweet_id : List Char) : List Char :=
  "https://x.com/".data ++ username ++ "/status/".data ++ tweet_id

/-- The `is_valid_tweet_url`. -/
def is_valid_tweet_url (url : List Char) : Bool := (parse_url url).isSome

end TweetParse

/-! ## Candidate records (`ParsedTweet`) -/

/-- The `ParsedTweet` of `tweet_parser.py` (the normalised candidate shape). -/
structure ParsedTweet where
  tweet_id : String
  author_username : String := ""
  author_name : String := ""
  text : String := ""
  lang : String := ""
  likes : ℕ := 0
  retweets : ℕ := 0
  replies : ℕ := 0
  quotes : ℕ := 0
  bookmarks : ℕ := 0
  url : String := ""
  collected_at : String := ""
  source : String := "manual"
  tags : List String := []
  memo : String := ""
  preference_match_score : ℚ := 0
  matched_topics : List String := []
  matched_keywords : List String := []
  deriving Repr, DecidableEq

namespace TweetParse

/-- The `TweetParser.from_url` (the `ValueError` on an invalid URL is modelled
as `none`). -/
def from_url (now : String) (url : List Char) (text : String) (memo : String) :
    Option ParsedTweet :=
  match parse_url url with
  | none => none
  | some (username, tweet_id) =>
    some { tweet_id := ⟨tweet_id⟩
           author_username := ⟨username⟩
           text := text
           url := ⟨build_url username tweet_id⟩
           collected_at := now
           source := "manual"
           memo := memo }

end TweetParse

/-! ## Queue Store (`src/collect/queue_manager.py`) -/

/-- One row of the pending/processed queue files: a `ParsedTweet` dict
extended by curation state (`QueueManager.add` adds the extra keys). -/
structure QItem where
  tweet_id : String
  author_username : String := ""
  author_name : String := ""
  text : String := ""
  lang : String := ""
  likes : ℕ := 0
  retweets : ℕ := 0
  replies : ℕ := 0
  quotes : ℕ := 0
  bookmarks : ℕ := 0
  url : String := ""
  collected_at : String := ""
  source : String := "manual"
  tags : List String := []
  memo : String := ""
  preference_match_score : ℚ := 0
  matched_topics : List String := []
  matched_keywords : List String := []
  status : String := "pending"
  added_at : String := ""
  generated_text : String := ""
  template_id : String := ""
  score : Option (List (String × ℚ)) := none
  skip_reason : String := ""
  feedback_note : String := ""
  posted_tweet_id : String := ""
  posted_at : String := ""
  deriving Repr, DecidableEq

/-- A curation decision recorded to the feedback log. -/
inductive Decision where
  | approved
  | skipped
  deriving Repr, DecidableEq

/-- One append-only entry of `data/feedback/selection_feedback.json`. -/
structure FeedbackEntry where
  tweet_id : String
  author_username : String
  decision : Decision
  skip_reason : String
  feedback_note : String
  preference_match_score : ℚ
  matched_topics : List String
  matched_keywords : List String
  likes : ℕ
  decided_at : String
  deriving Repr, DecidableEq

/-- An `{approved, skipped}` counter pair of the cached feedback stats. -/
structure PairStat where
  approved : ℕ := 0
  skipped : ℕ := 0
  deriving Repr, DecidableEq

/-- The cached aggregate block of the feedback file. -/
structure FeedbackStats where
  total : ℕ := 0
  approved : ℕ := 0
  skipped : ℕ := 0
  approval_rate : ℚ := 0
  by_source : List (String × PairStat) := []
  by_topic : List (String × PairStat) := []
  by_keyword : List (String × PairStat) := []
  by_reason : List (String × ℕ) := []
  deriving Repr, DecidableEq

/-- The feedback file: `{entries: [...], stats: {...}}`. -/
structure FeedbackData where
  entries : List FeedbackEntry := []
  stats : FeedbackStats := {}
  deriving Repr, DecidableEq

/-- The Queue Store's whole mutable state: the pending file, the processed
file and the feedback file. -/
structure QueueState where
  pending : List QItem := []
  processed : List QItem := []
  feedback : FeedbackData := {}
  deriving Repr, DecidableEq

namespace QueueManager

/-- The `setdefault(k, {...})` followed by a counter bump, on an
insertion-ordered association list. -/
def bumpPair (m : List (String × PairStat)) (k : String) (dec : Decision) :
    List (String × PairStat) :=
  match m with
  | [] =>
    [(k, match dec with
         | .approved => { approved := 1 }
         | .skipped => { skipped := 1 })]
  | (k', v) :: rest =>
    if k' = k then
      (k', match dec with
           | .approved => { v with approved := v.approved + 1 }
           | .skipped => { v with skipped := v.skipped + 1 }) :: rest
    else (k', v) :: bumpPair rest k dec

/-- The `by_reason[reason] = by_reason.get(reason, 0) + 1`. -/
def bumpReason (m : List (String × ℕ)) (k : String) : List (String × ℕ) :=
  match m with
  | [] => [(k, 1)]
  | (k', v) :: rest =>
    if k' = k then (k', v + 1) :: rest else (k', v) :: bumpReason rest k

/-- The `QueueManager._record_feedback`: append one entry and update the cached
aggregate counters in the same write. -/
def record_feedback (now : String) (item : QItem) (dec : Decision)
    (fb : FeedbackData) : FeedbackData :=
  let entry : FeedbackEntry :=
    { tweet_id := item.tweet_id
      author_username := item.author_username
      decision := dec
      skip_reason := item.skip_reason
      feedback_note := item.feedback_note
      preference_match_score := item.preference_match_score
      matched_topics := item.matched_topics
      matched_keywords := item.matched_keywords
      likes := item.likes
      decided_at := now }
  let s0 := fb.stats
  let s1 := { s0 with total := s0.total + 1 }
  let s2 :=
    match dec with
    | .approved => { s1 with approved := s1.approved + 1 }
    | .skipped => { s1 with skipped := s1.skipped + 1 }
  let s3 := { s2 with approval_rate := roundTo 3 ((s2.approved : ℚ) / (s2.total : ℚ)) }
  let source := if item.author_username = "" then "unknown" else item.author_username
  let s4 := { s3 with by_source := bumpPair s3.by_source source dec }
  let s5 := { s4 with by_topic :=
    item.matched_topics.foldl (fun m t => bumpPair m t dec) s4.by_topic }
  let s6 := { s5 with by_keyword :=
    item.matched_keywords.foldl (fun m k => bumpPair m k dec) s5.by_keyword }
  let s7 :=
    if dec = .skipped ∧ item.skip_reason ≠ "" then
      { s6 with by_reason := bumpReason s6.by_reason item.skip_reason }
    else s6
  { entries := fb.entries ++ [entry], stats := s7 }

/-- The queue entry built by `QueueManager.add` from a `ParsedTweet`
(`to_dict()` plus the curation-state keys). -/
def entryOf (now : String) (t : ParsedTweet) : QItem :=
  { tweet_id := t.tweet_id
    author_username := t.author_username
    author_name := t.author_name
    text := t.text
    lang := t.lang
    likes := t.likes
    retweets := t.retweets
    replies := t.replies
    quotes := t.quotes
    bookmarks := t.bookmarks
    url := t.url
    collected_at := t.collected_at
    source := t.source
    tags := t.tags
    memo := t.memo
    preference_match_score := t.preference_match_score
    matched_topics := t.matched_topics
    matched_keywords := t.matched_keywords
    status := "pending"
    added_at := now
    generated_text := ""
    template_id := ""
    score := none
    skip_reason := ""
    feedback_note := "" }

/-- The `QueueManager.add`: reject iff the `tweet_id` is already present in
pending ∪ processed; otherwise append a fresh pending entry. -/
def add (now : String) (t : ParsedTweet) (s : QueueState) : Bool × QueueState :=
  if t.tweet_id ∈ s.pending.map (·.tweet_id) ∨
     t.tweet_id ∈ s.processed.map (·.tweet_id) then
    (false, s)
  else
    (true, { s with pending := s.pending ++ [entryOf now t] })

/-- Update the first item of the pending list with a matching `tweet_id`,
returning the updated item and the updated list. -/
def updateFirst (id : String) (f : QItem → QItem) :
    List QItem → Option (QItem × List QItem)
  | [] => none
  | x :: xs =>
    if x.tweet_id = id then some (f x, f x :: xs)
    else
      match updateFirst id f xs with
      | none => none
      | some (u, ys) => some (u, x :: ys)

/-- The `QueueManager.approve`: set the first matching record's status to
`approved` and record a feedback entry; `False` when not found. -/
def approve (now : String) (id : String) (s : QueueState) : Bool × QueueState :=
  match updateFirst id (fun x => { x with status := "approved" }) s.pending with
  | none => (false, s)
  | some (u, pend) =>
    (true, { s with pending := pend
                    feedback := record_feedback now u .approved s.feedback })

/-- The `QueueManager.skip_with_reason`: set the first matching record to
`skipped` with the given reason and note, and record a feedback entry. -/
def skip_with_reason (now : String) (id : String) (reason note : String)
    (s : QueueState) : Bool × QueueState :=
  match updateFirst id
      (fun x => { x with status := "skipped", skip_reason := reason,
                         feedback_note := note }) s.pending with
  | none => (false, s)
  | some (u, pend) =>
    (true, { s with pending := pend
                    feedback := record_feedback now u .skipped s.feedback })

/-- The `QueueManager.approve_all_pending`: flip every `pending` record to
`approved`, returning the count. No feedback entries are recorded. -/
def approve_all_pending (s : QueueState) : ℕ × QueueState :=
  (s.pending.countP (fun i => i.status = "pending"),
   { s with pending :=
       s.pending.map (fun i =>
         if i.status = "pending" then { i with status := "approved" } else i) })

/-- The `QueueManager.get_today_posted_count`. -/
def get_today_posted_count (today : String) (s : QueueState) : ℕ :=
  s.processed.countP (fun i => i.posted_at.startsWith today)

/-- The result shape of `QueueManager.stats()`. -/
structure QStats where
  pending : ℕ
  approved : ℕ
  skipped : ℕ
  posted_total : ℕ
  posted_today : ℕ
  deriving Repr, DecidableEq

/-- The `QueueManager.stats`. -/
def stats (today : String) (s : QueueState) : QStats :=
  { pending := s.pending.countP (fun i => i.status = "pending")
    approved := s.pending.countP (fun i => i.status = "approved")
    skipped := s.pending.countP (fun i => i.status = "skipped")
    posted_total := s.processed.length
    posted_today := get_today_posted_count today s }

end QueueManager

/-! ## Mix Planner (`src/post/mix_planner.py`) -/

/-- Python `int()` on a rational: truncation toward zero. -/
def truncQ (q : ℚ) : ℤ := if q < 0 then -(⌊-q⌋) else ⌊q⌋

namespace MixPlanner

/-- One entry of the 10-slot base roster. -/
structure Slot where
  slot_id : String
  base_hour : ℤ
  base_minute : ℤ
  jitter_min : ℕ
  type_pool : List String
  deriving Repr, DecidableEq

/-- A slot with its assigned post type and (after jitter) its scheduled
time. -/
structure PlanItem where
  slot_id : String
  base_hour : ℤ
  base_minute : ℤ
  jitter_min : ℕ
  type_pool : List String
  type : String
  scheduled_hour : ℤ := 0
  scheduled_minute : ℤ := 0
  deriving Repr, DecidableEq

/-- The `DEFAULT_SLOTS` — the fixed roster of 10 base slots. -/
def DEFAULT_SLOTS : List Slot :=
  [ ⟨"slot_01", 7,  0,  20, ["original"]⟩,
    ⟨"slot_02", 8,  30, 25, ["quote_rt"]⟩,
    ⟨"slot_03", 10, 15, 20, ["quote_rt"]⟩,
    ⟨"slot_04", 12, 0,  20, ["original"]⟩,
    ⟨"slot_05", 14, 15, 20, ["quote_rt"]⟩,
    ⟨"slot_06", 16, 0,  25, ["quote_rt"]⟩,
    ⟨"slot_07", 18, 0,  20, ["quote_rt"]⟩,
    ⟨"slot_08", 19, 45, 15, ["original"]⟩,
    ⟨"slot_09", 21, 0,  20, ["quote_rt"]⟩,
    ⟨"slot_10", 22, 30, 25, ["quote_rt", "original"]⟩ ]

/-- The `MIN_INTERVAL_MINUTES = 60`. -/
def MIN_INTERVAL_MINUTES : ℤ := 60

/-- The post types of a plan, in slot order. -/
def typesOf (plan : List PlanItem) : List String := plan.map (·.type)

/-- The `plan[-m:]` of Python on the type list: the last `m` items for `m > 0`,
the whole list for `m = 0` (Python's negative-zero slice quirk). -/
def pyTailTypes (m : ℕ) (plan : List PlanItem) : List String :=
  if m = 0 then typesOf plan else (typesOf plan).drop (plan.length - m)

/-- One iteration of the `_assign_types` loop: enforce the consecutive-quote
cap, then prefer `quote_rt` while the slot pool allows it and the quota is
open. -/
def assignStep (maxConsecutive : ℕ) (maxQuotes : ℤ) :
    List PlanItem × ℕ × ℕ → Slot → List PlanItem × ℕ × ℕ
  | (plan, quoteCount, origCount), slot =>
    let recent := pyTailTypes maxConsecutive plan
    let postType :=
      if (recent ≠ [] ∧ ∀ t ∈ recent, t = "quote_rt") ∧ maxConsecutive ≤ recent.length then
        "original"
      else if "quote_rt" ∈ slot.type_pool ∧ (quoteCount : ℤ) < maxQuotes then
        "quote_rt"
      else
        "original"
    let item : PlanItem :=
      { slot_id := slot.slot_id, base_hour := slot.base_hour,
        base_minute := slot.base_minute, jitter_min := slot.jitter_min,
        type_pool := slot.type_pool, type := postType }
    if postType = "quote_rt" then (plan ++ [item], quoteCount + 1, origCount)
    else (plan ++ [item], quoteCount, origCount + 1)

/-- The `MixPlanner._assign_types` (the quote quota is
`min(int(len(slots)·quote_rt_ratio_max), available_quotes)`). -/
def assign_types (maxConsecutive : ℕ) (quoteRatioMax : ℚ)
    (slots : List Slot) (availableQuotes : ℕ) : List PlanItem :=
  let maxQuotes : ℤ := min (truncQ ((slots.length : ℚ) * quoteRatioMax)) (availableQuotes : ℤ)
  (slots.foldl (assignStep maxConsecutive maxQuotes) ([], 0, 0)).1

/-- The `MixPlanner._randomize_times` on one item, for a given jitter draw:
normalise the minute overflow once, then clamp the hour to `[6, 23]` and
the minute to `[0, 59]`. -/
def randomizeOne (item : PlanItem) (jitter : ℤ) : PlanItem :=
  let hour0 := item.base_hour
  let minute0 := item.base_minute + jitter
  let hm :=
    if minute0 < 0 then (hour0 - 1, minute0 + 60)
    else if 60 ≤ minute0 then (hour0 + 1, minute0 - 60)
    else (hour0, minute0)
  { item with scheduled_hour := max 6 (min 23 hm.1),
              scheduled_minute := max 0 (min 59 hm.2) }

/-- The `_randomize_times` over the plan; the random draw for the `i`-th slot
is `jf i` (the code draws uniformly from `[-jitter_min, jitter_min]`; the
theorems hold for every draw). -/
def randomizeGo (jf : ℕ → ℤ) : ℕ → List PlanItem → List PlanItem
  | _, [] => []
  | i, x :: xs => randomizeOne x (jf i) :: randomizeGo jf (i + 1) xs

/-- The `MixPlanner._randomize_times`. -/
def randomize_times (jf : ℕ → ℤ) (plan : List PlanItem) : List PlanItem :=
  randomizeGo jf 0 plan

/-- Scheduled minute-of-day of a plan item. -/
def timeOf (p : PlanItem) : ℤ := p.scheduled_hour * 60 + p.scheduled_minute

/-- The `_enforce_min_interval` left-to-right sweep: `prev` is the (already
final) scheduled time of the previous slot; a slot closer than the minimum
is pushed forward to exactly `prev + MIN_INTERVAL_MINUTES`. -/
def enforceAux (prev : ℤ) : List PlanItem → List PlanItem
  | [] => []
  | x :: xs =>
    let t := timeOf x
    if t - prev < MIN_INTERVAL_MINUTES then
      let nt := prev + MIN_INTERVAL_MINUTES
      (let x' := { x with scheduled_hour := nt.ediv 60, scheduled_minute := nt.emod 60 }
       x' :: enforceAux nt xs)
    else x :: enforceAux t xs

/-- The `MixPlanner._enforce_min_interval`. -/
def enforce_min_interval : List PlanItem → List PlanItem
  | [] => []
  | x :: xs => x :: enforceAux (timeOf x) xs

/-- The deterministic core of `MixPlanner.plan_daily`: type assignment,
time jitter, then interval enforcement, for a given selected slot list and
given jitter draws (warm-up capping, the daily-count draw and
`_select_slots` only choose `slots` and `availableQuotes`, over which the
theorems quantify). -/
def plan_daily_core (maxConsecutive : ℕ) (quoteRatioMax : ℚ)
    (slots : List Slot) (availableQuotes : ℕ) (jf : ℕ → ℤ) : List PlanItem :=
  enforce_min_interval (randomize_times jf (assign_types maxConsecutive quoteRatioMax slots availableQuotes))

end MixPlanner

/-! ## Safety Gate (`src/post/safety_checker.py`) -/

/-- Python's substring test `needle in hay` on character lists. -/
def containsSub (needle : List Char) : List Char → Bool
  | [] => needle.isEmpty
  | h :: t => needle.isPrefixOf (h :: t) || containsSub needle t

/-- A `dropWhile` never lengthens a list. -/
theorem length_dropWhile_le' {α : Type} (p : α → Bool) (l : List α) :
    (l.dropWhile p).length ≤ l.length := by
  induction l with
  | nil => simp [List.dropWhile]
  | cons a t ih =>
    by_cases h : p a
    · simp only [List.dropWhile, h]
      exact Nat.le_succ_of_le ih
    · simp [List.dropWhile, h]

namespace SafetyChecker

/-- The rule set handed to `SafetyChecker` (`ng_words` already flattened
from its categories, as `__init__` does; numeric fields carry the
`content_rules`/`quality_rules`/`posting_rules` defaults of the source). -/
structure SafetyRules where
  ng_words : List String := []
  min_length : ℕ := 40
  max_length : ℕ := 280
  max_hashtags : ℕ := 3
  max_links : ℕ := 1
  max_emoji : ℕ := 3
  duplicate_threshold : ℚ := 4/5
  posting_interval_min_minutes : ℤ := 60
  deriving Repr, DecidableEq

/-- The `quote_rt_context` dict. -/
structure QuoteRtContext where
  source_username : String := ""
  today_same_source_count : ℕ := 0
  consecutive_quote_count : ℕ := 0
  deriving Repr, DecidableEq

/-- A hard violation (one element of `violations[]`, with the data the
formatted message carries). -/
inductive Violation where
  | ngWords (found : List String)
  | tooShort (n min : ℕ)
  | tooLong (n max : ℕ)
  | tooManyHashtags (n max : ℕ)
  | tooManyLinks (n max : ℕ)
  | duplicate (similarity threshold : ℚ)
  | intervalTooShort (minutesAgo : ℤ) (minInterval : ℤ)
  | sameSourceLimit (username : String)
  | bannedPattern (pat : String)
  deriving Repr, DecidableEq

/-- A non-blocking warning. -/
inductive Warning where
  | urlInQuote
  | tooManyEmoji (n max : ℕ)
  | consecutiveQuotes
  deriving Repr, DecidableEq

/-- The `SafetyResult`. -/
structure SafetyResult where
  is_safe : Bool
  violations : List Violation := []
  warnings : List Warning := []
  deriving Repr, DecidableEq

/-- Lower-case a string character-wise (`str.lower()` on the ASCII texts
the checker handles). -/
def lowerL (l : List Char) : List Char := l.map Char.toLower

/-- The `SafetyChecker._check_ng_words`: every configured word occurring
case-insensitively in the text. -/
def check_ng_words (ngWords : List String) (text : String) : List String :=
  ngWords.filter (fun w => containsSub (lowerL w.data) (lowerL text.data))

/-- The `\S+` can start here: the next character exists and is not
whitespace. -/
def hashStartOk : List Char → Bool
  | [] => false
  | d :: _ => !d.isWhitespace

/-- The `re.findall(r'#\S+', text)` count: non-overlapping scan, each match a
`#` followed by a maximal nonempty non-whitespace run. -/
def countHashtags : List Char → ℕ
  | [] => 0
  | c :: rest =>
    if c = '#' ∧ hashStartOk rest then
      1 + countHashtags (rest.dropWhile (fun x => !x.isWhitespace))
    else countHashtags rest
  termination_by l => l.length
  decreasing_by
  all_goals simp_wf
  all_goals exact Nat.lt_succ_of_le (length_dropWhile_le' _ _)

/-- The `https?://` at the head of the input: the rest after the scheme. -/
def schemeSplit (l : List Char) : Option (List Char) :=
  match TweetParse.expectStr "https://".data l with
  | some r => some r
  | none => TweetParse.expectStr "http://".data l

/-- The `\S+` part of the link pattern: at least one non-whitespace
character after the scheme, consumed maximally. -/
def linkTail : List Char → Option (List Char)
  | [] => none
  | d :: ds =>
    if d.isWhitespace then none
    else some ((d :: ds).dropWhile (fun x => !x.isWhitespace))

/-- One step of the `https?://\S+` scan: if a link starts here, return the
input after the maximal non-whitespace run. -/
def linkAt (l : List Char) : Option (List Char) :=
  match schemeSplit l with
  | none => none
  | some r => linkTail r

/-- The `expectStr` consumes exactly the literal's length. -/
theorem expectStr_length : ∀ (lit l r : List Char),
    TweetParse.expectStr lit l = some r → r.length + lit.length = l.length := by
  intro lit
  induction lit with
  | nil => intro l r h; simp [TweetParse.expectStr] at h; simp [h]
  | cons c cs ih =>
    intro l r h
    match l with
    | [] => simp [TweetParse.expectStr] at h
    | d :: ds =>
      simp only [TweetParse.expectStr] at h
      split at h
      · have := ih ds r h
        simp [List.length_cons]; omega
      · exact Option.noConfusion h

/-- A successful `schemeSplit` strictly shrinks the input. -/
theorem schemeSplit_length_lt (l r : List Char) (h : schemeSplit l = some r) :
    r.length < l.length := by
  unfold schemeSplit at h
  rcases h1 : TweetParse.expectStr "https://".data l with _ | r1 <;> rw [h1] at h
  · have := expectStr_length _ _ _ h
    simp at this; omega
  · simp only [Option.some.injEq] at h
    subst h
    have := expectStr_length _ _ _ h1
    simp at this; omega

/-- A successful `linkTail` never lengthens its input. -/
theorem linkTail_length_le (r out : List Char) (h : linkTail r = some out) :
    out.length ≤ r.length := by
  cases r with
  | nil => exact Option.noConfusion h
  | cons d ds =>
    simp only [linkTail] at h
    split at h
    · exact Option.noConfusion h
    · injection h with h2
      subst h2
      exact length_dropWhile_le' (fun x => !x.isWhitespace) (d :: ds)

/-- A successful `linkAt` strictly shrinks the input. -/
theorem linkAt_length_lt (l r : List Char) (h : linkAt l = some r) :
    r.length < l.length := by
  unfold linkAt at h
  rcases hs : schemeSplit l with _ | r1 <;> rw [hs] at h
  · exact Option.noConfusion h
  · have h2 : linkTail r1 = some r := h
    exact lt_of_le_of_lt (linkTail_length_le _ _ h2) (schemeSplit_length_lt _ _ hs)

/-- The `re.findall(r'https?://\S+', text)` count. -/
def countLinks (l : List Char) : ℕ :=
  match l with
  | [] => 0
  | c :: rest =>
    match h : linkAt (c :: rest) with
    | some r =>
      have : r.length < (c :: rest).length := linkAt_length_lt _ _ h
      1 + countLinks r
    | none => countLinks rest
  termination_by l.length

/-- Membership of the emoji regex's character class. -/
def isEmojiChar (c : Char) : Bool :=
  let v := c.val
  (0x1F600 ≤ v && v ≤ 0x1F64F) ||
  (0x1F300 ≤ v && v ≤ 0x1F5FF) ||
  (0x1F680 ≤ v && v ≤ 0x1F6FF) ||
  (0x1F1E0 ≤ v && v ≤ 0x1F1FF) ||
  (0x2702 ≤ v && v ≤ 0x27B0) ||
  (0x1F900 ≤ v && v ≤ 0x1F9FF) ||
  (0x1FA00 ≤ v && v ≤ 0x1FA6F) ||
  (0x1FA70 ≤ v && v ≤ 0x1FAFF) ||
  (0x2600 ≤ v && v ≤ 0x26FF) ||
  (0xFE00 ≤ v && v ≤ 0xFE0F) ||
  (v == 0x200D)

/-- The first past post at or above the similarity threshold, with its
similarity (the loop breaks at the first hit). -/
def firstDup (ratio : String → String → ℚ) (threshold : ℚ) (text : String) :
    List String → Option ℚ
  | [] => none
  | p :: ps =>
    let s := ratio text p
    if threshold ≤ s then some s else firstDup ratio threshold text ps

/-- The `SafetyChecker._check_quote_rt`. -/
def check_quote_rt (text : String) (ctx : QuoteRtContext) :
    List Violation × List Warning :=
  let v1 : List Violation :=
    if 1 ≤ ctx.today_same_source_count then [.sameSourceLimit ctx.source_username] else []
  let w1 : List Warning :=
    if 2 ≤ ctx.consecutive_quote_count then [.consecutiveQuotes] else []
  let banned := ["翻訳しました", "Translation:", "translated"]
  let v2 : List Violation :=
    match banned.find? (fun pat => containsSub (lowerL pat.data) (lowerL text.data)) with
    | some pat => [.bannedPattern pat]
    | none => []
  (v1 ++ v2, w1)

/-- The `SafetyChecker.check`. `ratio` abstracts the external
`difflib.SequenceMatcher(None, a, b).ratio()` of the Python standard
library (the spec leaves the similarity-algorithm family open); every
theorem below holds for every `ratio`. -/
def check (rules : SafetyRules) (ratio : String → String → ℚ) (text : String)
    (past_posts : List String) (last_post_minutes_ago : Option ℤ)
    (is_quote_rt : Bool) (quote_rt_context : Option QuoteRtContext) :
    SafetyResult :=
  let ngFound := check_ng_words rules.ng_words text
  let v1 : List Violation := if ngFound.isEmpty then [] else [.ngWords ngFound]
  let text_len := (text.data.filter (fun c => c ≠ '\n')).length
  let minLen := if is_quote_rt then 30 else rules.min_length
  let maxLen := if is_quote_rt then 250 else rules.max_length
  let v2 : List Violation :=
    (if text_len < minLen then [.tooShort text_len minLen] else []) ++
    (if maxLen < text_len then [.tooLong text_len maxLen] else [])
  let hashtags := countHashtags text.data
  let v3 : List Violation :=
    if rules.max_hashtags < hashtags then [.tooManyHashtags hashtags rules.max_hashtags] else []
  let links := countLinks text.data
  let v4 : List Violation :=
    if is_quote_rt then []
    else if rules.max_links < links then [.tooManyLinks links rules.max_links] else []
  let w1 : List Warning :=
    if is_quote_rt ∧ 0 < links then [.urlInQuote] else []
  let emoji := text.data.countP isEmojiChar
  let w2 : List Warning :=
    if rules.max_emoji < emoji then [.tooManyEmoji emoji rules.max_emoji] else []
  let v5 : List Violation :=
    if past_posts.isEmpty then []
    else
      match firstDup ratio rules.duplicate_threshold text past_posts with
      | some s => [.duplicate s rules.duplicate_threshold]
      | none => []
  let v6 : List Violation :=
    match last_post_minutes_ago with
    | none => []
    | some m =>
      if m < rules.posting_interval_min_minutes then
        [.intervalTooShort m rules.posting_interval_min_minutes]
      else []
  let vw7 : List Violation × List Warning :=
    match is_quote_rt, quote_rt_context with
    | true, some ctx => check_quote_rt text ctx
    | _, _ => ([], [])
  let violations := v1 ++ v2 ++ v3 ++ v4 ++ v5 ++ v6 ++ vw7.1
  { is_safe := violations.isEmpty
    violations := violations
    warnings := w1 ++ w2 ++ vw7.2 }

end SafetyChecker

/-! ## Preference Scorer (`src/collect/preference_scorer.py`) -/

namespace PreferenceScorer

/-- The parts of the `selection_preferences.json` document the scorer
reads. -/
structure Preferences where
  focus_keywords : List String := []
  focus_accounts : List String := []
  preferred : List String := []
  avoid : List String := []
  boosted : List String := []
  blocked : List String := []
  keyword_weights : List (String × ℚ) := []
  topic_clusters : List (String × List String) := []
  deriving Repr, DecidableEq

/-- The `str.lower()` character-wise. -/
def lowerS (s : String) : String := ⟨s.data.map Char.toLower⟩

/-- Python's `a in b` substring test on strings. -/
def inStr (needle hay : String) : Bool := containsSub needle.data hay.data

/-- The `PreferenceScorer._classify_topics`: a topic matches when at least two
of its cluster keywords occur, or exactly one occurs and some occurring
keyword has length ≥ 5. -/
def classify_topics (clusters : List (String × List String))
    (text_lower : String) : List String :=
  clusters.filterMap (fun tc =>
    let cnt := (tc.2.filter (fun kw => inStr (lowerS kw) text_lower)).length
    if 2 ≤ cnt ∨
       (cnt = 1 ∧ tc.2.any (fun kw => decide (5 ≤ kw.length) && inStr (lowerS kw) text_lower)) then
      some tc.1
    else none)

/-- The result dict of `PreferenceScorer.score`. -/
structure ScoreResult where
  preference_score : ℚ
  matched_topics : List String
  matched_keywords : List String
  is_blocked : Bool
  is_focus_match : Bool
  deriving Repr, DecidableEq

/-- The `PreferenceScorer.score`, translated clause by clause from the
source. -/
def score (prefs : Preferences) (tweet_text : String) (author_username : String) :
    ScoreResult :=
  let text_lower := lowerS tweet_text
  if (prefs.blocked.map lowerS).contains (lowerS author_username) then
    { preference_score := 0, matched_topics := [], matched_keywords := [],
      is_blocked := true, is_focus_match := false }
  else
    let matchedKw := prefs.keyword_weights.filter (fun kw => inStr (lowerS kw.1) text_lower)
    let matched_keywords := matchedKw.map (·.1)
    let keyword_score : ℚ := (matchedKw.map (·.2)).sum
    let s1 : ℚ := 1 + (if 0 < keyword_score then min keyword_score 2 else 0)
    let matched_topics := classify_topics prefs.topic_clusters text_lower
    let preferredL := prefs.preferred.map lowerS
    let avoidL := prefs.avoid.map lowerS
    let topic_score : ℚ := (matched_topics.map (fun t =>
        if preferredL.contains (lowerS t) then (1 : ℚ)
        else if avoidL.contains (lowerS t) then -(3/2) else 0)).sum
    let s2 := s1 + topic_score
    let s3 := if (prefs.boosted.map lowerS).contains (lowerS author_username)
              then s2 * (3/2) else s2
    let anyFocusKw := prefs.focus_keywords.any (fun fk => inStr (lowerS fk) text_lower)
    let s4 := if anyFocusKw then s3 + 1/2 else s3
    let isFocusAcct := (prefs.focus_accounts.map lowerS).contains (lowerS author_username)
    let s5 := if isFocusAcct then s4 + 1/2 else s4
    { preference_score := roundTo 2 (max s5 0)
      matched_topics := matched_topics
      matched_keywords := matched_keywords
      is_blocked := false
      is_focus_match := anyFocusKw || isFocusAcct }

/-- Modelled from the spec's words (§4.3 / claim C6), independently of the
source: blocked short-circuit; otherwise base 1.0, plus the matched keyword
weights capped at +2.0, plus 1.0 per matched preferred topic and minus 1.5
per matched avoided topic, ×1.5 when boosted, +0.5 for a focus-keyword hit
and +0.5 for a focus account, clamped to ≥ 0 and rounded to two
decimals. -/
def score_spec (prefs : Preferences) (tweet_text : String) (author_username : String) :
    ScoreResult :=
  let text_lower := lowerS tweet_text
  if (prefs.blocked.map lowerS).contains (lowerS author_username) then
    { preference_score := 0, matched_topics := [], matched_keywords := [],
      is_blocked := true, is_focus_match := false }
  else
    let matchedKw := prefs.keyword_weights.filter (fun kw => inStr (lowerS kw.1) text_lower)
    let kwContribution : ℚ := min ((matchedKw.map (·.2)).sum) 2
    let matched_topics := classify_topics prefs.topic_clusters text_lower
    let preferredL := prefs.preferred.map lowerS
    let avoidL := prefs.avoid.map lowerS
    let preferredHits := (matched_topics.filter (fun t => preferredL.contains (lowerS t))).length
    let avoidHits := (matched_topics.filter (fun t => avoidL.contains (lowerS t))).length
    let boostFactor : ℚ :=
      if (prefs.boosted.map lowerS).contains (lowerS author_username) then 3/2 else 1
    let anyFocusKw := prefs.focus_keywords.any (fun fk => inStr (lowerS fk) text_lower)
    let isFocusAcct := (prefs.focus_accounts.map lowerS).contains (lowerS author_username)
    let raw : ℚ :=
      (1 + kwContribution + preferredHits - (3/2) * avoidHits) * boostFactor
        + (if anyFocusKw then 1/2 else 0) + (if isFocusAcct then 1/2 else 0)
    { preference_score := roundTo 2 (max raw 0)
      matched_topics := matched_topics
      matched_keywords := matchedKw.map (·.1)
      is_blocked := false
      is_focus_match := anyFocusKw || isFocusAcct }

end PreferenceScorer

/-! ## Search-API payload normalisation (`TweetParser.from_api_data`) -/

/-- The nested `user`/`author` object of a search-API payload. -/
structure ApiUser where
  screen_name : Option String := none
  username : Option String := none
  name : Option String := none
  deriving Repr, DecidableEq

/-- A nested `public_metrics` object (X API v2 shape). -/
structure PublicMetrics where
  like_count : Option ℕ := none
  retweet_count : Option ℕ := none
  reply_count : Option ℕ := none
  quote_count : Option ℕ := none
  deriving Repr, DecidableEq

/-- A search-API tweet payload; a `none` field is an absent key.
`id`/`id_str` string-valued (the source wraps `id` in `str()`). -/
structure ApiPayload where
  id : Option String := none
  tweet_id : Option String := none
  id_str : Option String := none
  text : Option String := none
  full_text : Option String := none
  user : Option ApiUser := none
  author : Option ApiUser := none
  lang : Option String := none
  favorite_count : Option ℕ := none
  like_count : Option ℕ := none
  retweet_count : Option ℕ := none
  reply_count : Option ℕ := none
  quote_count : Option ℕ := none
  bookmark_count : Option ℕ := none
  public_metrics : Option PublicMetrics := none
  deriving Repr, DecidableEq

namespace TweetParse

/-- The `TweetParser.from_api_data`: best-effort field mapping from a raw
payload dict onto `ParsedTweet`. -/
def from_api_data (now : String) (data : ApiPayload) (source : String) : ParsedTweet :=
  let tweet_id := (data.id.getD (data.tweet_id.getD ""))
  let author := (data.user.getD (data.author.getD {}))
  let username := author.screen_name.getD (author.username.getD "")
  { tweet_id := tweet_id
    author_username := username
    author_name := author.name.getD ""
    text := data.text.getD (data.full_text.getD "")
    lang := data.lang.getD ""
    likes := data.favorite_count.getD (data.like_count.getD 0)
    retweets := data.retweet_count.getD 0
    replies := data.reply_count.getD 0
    quotes := data.quote_count.getD 0
    bookmarks := data.bookmark_count.getD 0
    url := ⟨build_url (author.screen_name.getD (author.username.getD "unknown")).data
                      tweet_id.data⟩
    collected_at := now
    source := source }

end TweetParse

/-! ## PDCA Updater (`src/pdca/preference_updater.py`) -/

namespace PreferenceUpdater

/-- The `MIN_DECISIONS_FOR_ADJUST = 10`. -/
def MIN_DECISIONS_FOR_ADJUST : ℕ := 10

/-- The `PROMOTE_THRESHOLD = 0.80`. -/
def PROMOTE_THRESHOLD : ℚ := 4/5

/-- The `DEMOTE_THRESHOLD = 0.30`. -/
def DEMOTE_THRESHOLD : ℚ := 3/10

/-- The `MAX_WEIGHT_CHANGE = 0.5`. -/
def MAX_WEIGHT_CHANGE : ℚ := 1/2

/-- The parts of the preferences document `auto_update` touches. -/
structure PrefsDoc where
  keyword_weights : List (String × ℚ) := []
  boosted : List String := []
  preferred : List String := []
  avoid : List String := []
  version : ℕ := 1
  updated_by : String := ""
  updated_at : String := ""
  deriving Repr, DecidableEq

/-- One recommendation entry of `analyze_feedback` (its `rate` is stored
rounded to 3 decimals, and that stored value is the sort key). -/
structure RecEntry where
  name : String
  rate : ℚ
  count : ℕ
  deriving Repr, DecidableEq

/-- Stable insertion sort by a boolean "should come no later than"
predicate (Python's stable `sorted`). -/
def insertBy {α : Type} (le : α → α → Bool) (x : α) : List α → List α
  | [] => [x]
  | y :: ys => if le x y then x :: y :: ys else y :: insertBy le x ys

/-- Sort a list by `le` (insertion sort). -/
def sortBy {α : Type} (le : α → α → Bool) (l : List α) : List α :=
  l.foldr (insertBy le) []

/-- The promote/boost side of one recommendation table: entries with
at least `MIN_DECISIONS_FOR_ADJUST` decisions and approval rate
≥ `PROMOTE_THRESHOLD`, sorted by rate descending. -/
def promoteRecs (m : List (String × PairStat)) : List RecEntry :=
  sortBy (fun a b => b.rate ≤ a.rate)
    (m.filterMap (fun kv =>
      if MIN_DECISIONS_FOR_ADJUST ≤ kv.2.approved + kv.2.skipped ∧
         PROMOTE_THRESHOLD ≤ (kv.2.approved : ℚ) / (kv.2.approved + kv.2.skipped) then
        some ⟨kv.1, roundTo 3 ((kv.2.approved : ℚ) / (kv.2.approved + kv.2.skipped)),
              kv.2.approved + kv.2.skipped⟩
      else none))

/-- The demote/reduce side: entries with enough decisions and approval
rate ≤ `DEMOTE_THRESHOLD`, sorted by rate ascending. -/
def demoteRecs (m : List (String × PairStat)) : List RecEntry :=
  sortBy (fun a b => a.rate ≤ b.rate)
    (m.filterMap (fun kv =>
      if MIN_DECISIONS_FOR_ADJUST ≤ kv.2.approved + kv.2.skipped ∧
         (kv.2.approved : ℚ) / (kv.2.approved + kv.2.skipped) ≤ DEMOTE_THRESHOLD ∧
         ¬ PROMOTE_THRESHOLD ≤ (kv.2.approved : ℚ) / (kv.2.approved + kv.2.skipped) then
        some ⟨kv.1, roundTo 3 ((kv.2.approved : ℚ) / (kv.2.approved + kv.2.skipped)),
              kv.2.approved + kv.2.skipped⟩
      else none))

/-- The `kw_weights.get(kw, 1.0)`. -/
def getWeight (m : List (String × ℚ)) (k : String) : ℚ :=
  match m.find? (fun p => p.1 = k) with
  | some p => p.2
  | none => 1

/-- The `kw_weights[kw] = v`: replace in place, or append for a new key. -/
def setWeight : List (String × ℚ) → String → ℚ → List (String × ℚ)
  | [], k, v => [(k, v)]
  | (k', v') :: rest, k, v =>
    if k' = k then (k', v) :: rest else (k', v') :: setWeight rest k v

/-- One boost step: `new = min(current+0.2, current+MAX_WEIGHT_CHANGE, 3.0)`,
stored rounded to one decimal when it differs from the current value; the
second component counts recorded changes. -/
def boostStep (st : List (String × ℚ) × ℕ) (kw : String) : List (String × ℚ) × ℕ :=
  let c := getWeight st.1 kw
  let nv := min (c + 1/5) (min (c + MAX_WEIGHT_CHANGE) 3)
  if nv ≠ c then (setWeight st.1 kw (roundTo 1 nv), st.2 + 1) else st

/-- One reduce step: `new = max(current-0.3, current-MAX_WEIGHT_CHANGE, 0.0)`. -/
def reduceStep (st : List (String × ℚ) × ℕ) (kw : String) : List (String × ℚ) × ℕ :=
  let c := getWeight st.1 kw
  let nv := max (c - 3/10) (max (c - MAX_WEIGHT_CHANGE) 0)
  if nv ≠ c then (setWeight st.1 kw (roundTo 1 nv), st.2 + 1) else st

/-- The `set.add` on a list representing a set. -/
def saddList (l : List String) (x : String) : List String :=
  if x ∈ l then l else l ++ [x]

/-- The `set.discard` on a list representing a set. -/
def sdiscardList (l : List String) (x : String) : List String :=
  l.filter (fun y => y ≠ x)

/-- Ascending sort of strings (`sorted(list(s))`). -/
def sortStrings (l : List String) : List String :=
  sortBy (fun a b => a ≤ b) l

/-- Account-priority adjustment: promote adds to `boosted`, demote removes
from it; each set change is one recorded change. -/
def applyAccounts (promote demote : List RecEntry) (boosted0 : List String) :
    List String × ℕ :=
  let p := promote.foldl (fun st e =>
      if e.name ∈ st.1 then st else (saddList st.1 e.name, st.2 + 1))
    (boosted0, 0)
  demote.foldl (fun st e =>
      if e.name ∈ st.1 then (sdiscardList st.1 e.name, st.2 + 1) else st) p

/-- Topic adjustment: a boost moves the topic out of `avoid` into
`preferred` (or just adds it); a reduce moves it out of `preferred` into
`avoid` (or just adds it to `avoid`). -/
def applyTopics (boost reduce : List RecEntry)
    (preferred0 avoid0 : List String) : List String × List String × ℕ :=
  let p := boost.foldl (fun st e =>
      if e.name ∈ st.2.1 then
        (saddList st.1 e.name, sdiscardList st.2.1 e.name, st.2.2 + 1)
      else if e.name ∈ st.1 then st
      else (saddList st.1 e.name, st.2.1, st.2.2 + 1))
    (preferred0, avoid0, 0)
  reduce.foldl (fun st e =>
      if e.name ∈ st.1 then
        (sdiscardList st.1 e.name, saddList st.2.1 e.name, st.2.2 + 1)
      else if e.name ∈ st.2.1 then st
      else (st.1, saddList st.2.1 e.name, st.2.2 + 1)) p

/-- The `PreferenceUpdater.auto_update`, as a pure function from the aggregated
feedback stats and the current preferences to the updated preferences and
the number of recorded changes. Below `MIN_DECISIONS_FOR_ADJUST` total
decisions it is a no-op (the early return). -/
def auto_update (stats : FeedbackStats) (prefs : PrefsDoc) (today : String) :
    PrefsDoc × ℕ :=
  if stats.total < MIN_DECISIONS_FOR_ADJUST then (prefs, 0)
  else
    let kwBoost := promoteRecs stats.by_keyword
    let kwReduce := demoteRecs stats.by_keyword
    let st1 := (kwBoost.map (·.name)).foldl boostStep (prefs.keyword_weights, 0)
    let st2 := (kwReduce.map (·.name)).foldl reduceStep st1
    let acctP := promoteRecs stats.by_source
    let acctD := demoteRecs stats.by_source
    let bst := applyAccounts acctP acctD (prefs.boosted.dedup)
    let tpB := promoteRecs stats.by_topic
    let tpR := demoteRecs stats.by_topic
    let tps := applyTopics tpB tpR (prefs.preferred.dedup) (prefs.avoid.dedup)
    ({ keyword_weights := st2.1
       boosted := sortStrings bst.1
       preferred := sortStrings tps.1
       avoid := sortStrings tps.2.1
       version := prefs.version + 1
       updated_by := "auto_pdca"
       updated_at := today },
     st2.2 + bst.2 + tps.2.2)

end PreferenceUpdater

/-! ## Theorems — Queue Store claims -/

/-- The `updateFirst` misses when no record carries the id. -/
theorem QueueManager.updateFirst_eq_none (id : String) (f : QItem → QItem)
    (l : List QItem) (h : id ∉ l.map (·.tweet_id)) :
    QueueManager.updateFirst id f l = none := by
  induction l with
  | nil => rfl
  | cons x xs ih =>
    simp only [List.map_cons, List.mem_cons] at h
    push_neg at h
    simp only [QueueManager.updateFirst]
    rw [if_neg (fun hx => h.1 hx.symm), ih h.2]

/-- Re-approving the already-updated pending list finds the same record and
leaves the list unchanged. -/
theorem QueueManager.updateFirst_approve_again (id : String) (l : List QItem) :
    ∀ (l' : List QItem) (u : QItem),
    QueueManager.updateFirst id (fun x => { x with status := "approved" }) l = some (u, l') →
    QueueManager.updateFirst id (fun x => { x with status := "approved" }) l' = some (u, l') := by
  induction l with
  | nil => intro l' u h; exact Option.noConfusion h
  | cons x xs ih =>
    intro l' u h
    simp only [QueueManager.updateFirst] at h
    by_cases hx : x.tweet_id = id
    · rw [if_pos hx] at h
      cases h
      simp only [QueueManager.updateFirst]
      rw [if_pos (show x.tweet_id = id from hx)]
    · rw [if_neg hx] at h
      cases hrec : QueueManager.updateFirst id (fun x => { x with status := "approved" }) xs with
      | none => rw [hrec] at h; exact Option.noConfusion h
      | some p =>
        rw [hrec] at h
        obtain ⟨u2, ys⟩ := p
        simp only [Option.some.injEq, Prod.mk.injEq] at h
        obtain ⟨hu, hl⟩ := h
        subst hl
        subst hu
        simp only [QueueManager.updateFirst]
        rw [if_neg hx, ih ys u2 hrec]

/-- A feedback write appends exactly one entry. -/
theorem QueueManager.record_feedback_entries (now : String) (item : QItem)
    (dec : Decision) (fb : FeedbackData) :
    (QueueManager.record_feedback now item dec fb).entries
      = fb.entries ++ [{ tweet_id := item.tweet_id
                         author_username := item.author_username
                         decision := dec
                         skip_reason := item.skip_reason
                         feedback_note := item.feedback_note
                         preference_match_score := item.preference_match_score
                         matched_topics := item.matched_topics
                         matched_keywords := item.matched_keywords
                         likes := item.likes
                         decided_at := now }] := by
  simp [QueueManager.record_feedback]

/-- C1 — `QueueManager.add` returns `false` iff the `tweet_id` is already
present in pending ∪ processed, mutating nothing in that case; and adding
the URL-derived record for `https://x.com/sama/status/12345` twice into an
empty queue leaves the second call returning `false` with
`stats().pending = 1`. -/
theorem QueueManager.add_dedup_spec (now : String) (t : ParsedTweet) (s : QueueState) :
    ((QueueManager.add now t s).1 = false ↔
      t.tweet_id ∈ s.pending.map (·.tweet_id) ∨
      t.tweet_id ∈ s.processed.map (·.tweet_id))
    ∧ ((QueueManager.add now t s).1 = false → (QueueManager.add now t s).2 = s)
    ∧ (TweetParse.from_url "n0" "https://x.com/sama/status/12345".data "" "" =
        some { tweet_id := "12345", author_username := "sama",
               url := "https://x.com/sama/status/12345", collected_at := "n0",
               source := "manual" }
       ∧ (QueueManager.add "n1"
            { tweet_id := "12345", author_username := "sama",
              url := "https://x.com/sama/status/12345", collected_at := "n0",
              source := "manual" } {}).1 = true
       ∧ (QueueManager.add "n2"
            { tweet_id := "12345", author_username := "sama",
              url := "https://x.com/sama/status/12345", collected_at := "n0",
              source := "manual" }
            (QueueManager.add "n1"
              { tweet_id := "12345", author_username := "sama",
                url := "https://x.com/sama/status/12345", collected_at := "n0",
                source := "manual" } {}).2).1 = false
       ∧ (QueueManager.stats "2026-10-12"
            (QueueManager.add "n2"
              { tweet_id := "12345", author_username := "sama",
                url := "https://x.com/sama/status/12345", collected_at := "n0",
                source := "manual" }
              (QueueManager.add "n1"
                { tweet_id := "12345", author_username := "sama",
                  url := "https://x.com/sama/status/12345", collected_at := "n0",
                  source := "manual" } {}).2).2).pending = 1) := by
  refine ⟨?_, ?_, by decide⟩
  · constructor
    · intro hf
      by_contra hc
      unfold QueueManager.add at hf
      rw [if_neg hc] at hf
      exact Bool.noConfusion hf
    · intro hc
      unfold QueueManager.add
      rw [if_pos hc]
  · intro hf
    by_cases hc : t.tweet_id ∈ s.pending.map (·.tweet_id) ∨
        t.tweet_id ∈ s.processed.map (·.tweet_id)
    · unfold QueueManager.add
      rw [if_pos hc]
    · unfold QueueManager.add at hf
      rw [if_neg hc] at hf
      exact Bool.noConfusion hf

/-- C1 witness: the second identical add into an empty queue reports a
duplicate and leaves the state untouched. -/
theorem QueueManager.add_dedup_spec_witness :
    (QueueManager.add "n2" ({ tweet_id := "12345" } : ParsedTweet)
      (QueueManager.add "n1" ({ tweet_id := "12345" } : ParsedTweet) {}).2).1 = false
    ∧ (QueueManager.add "n2" ({ tweet_id := "12345" } : ParsedTweet)
        (QueueManager.add "n1" ({ tweet_id := "12345" } : ParsedTweet) {}).2).2
      = (QueueManager.add "n1" ({ tweet_id := "12345" } : ParsedTweet) {}).2 := by
  have h := QueueManager.add_dedup_spec "n2" ({ tweet_id := "12345" } : ParsedTweet)
    (QueueManager.add "n1" ({ tweet_id := "12345" } : ParsedTweet) {}).2
  exact ⟨by decide, h.2.1 (by decide)⟩

/-- C10 — for a `tweet_id` with no record in the pending store, `approve`
and `skip_with_reason` return `false` and change nothing (records already
moved to the processed store are invisible to both). -/
theorem QueueManager.missing_id_noop (now id reason note : String) (s : QueueState)
    (h : id ∉ s.pending.map (·.tweet_id)) :
    QueueManager.approve now id s = (false, s) ∧
    QueueManager.skip_with_reason now id reason note s = (false, s) := by
  constructor
  · simp [QueueManager.approve, QueueManager.updateFirst_eq_none id _ _ h]
  · simp [QueueManager.skip_with_reason, QueueManager.updateFirst_eq_none id _ _ h]

/-- C10 witness: an id whose record sits only in the processed store. -/
theorem QueueManager.missing_id_noop_witness :
    QueueManager.approve "n" "777"
      { processed := [{ tweet_id := "777", status := "posted" }] } =
      (false, { processed := [{ tweet_id := "777", status := "posted" }] }) ∧
    QueueManager.skip_with_reason "n" "777" "low_quality" "note"
      { processed := [{ tweet_id := "777", status := "posted" }] } =
      (false, { processed := [{ tweet_id := "777", status := "posted" }] }) := by
  exact QueueManager.missing_id_noop "n" "777" "low_quality" "note"
    { processed := [{ tweet_id := "777", status := "posted" }] } (by decide)

/-- C3 counterexample — two `approve` calls on the same fresh record leave
the status `approved` but append **two** feedback entries, not one: the
feedback write is unconditional, not guarded by a status change. -/
theorem QueueManager.approve_twice_two_entries :
    ((QueueManager.approve "n2" "t1"
        (QueueManager.approve "n1" "t1"
          (QueueManager.add "n0" ({ tweet_id := "t1" } : ParsedTweet) {}).2).2).2.pending.map
      (·.status) = ["approved"])
    ∧ (QueueManager.approve "n2" "t1"
        (QueueManager.approve "n1" "t1"
          (QueueManager.add "n0" ({ tweet_id := "t1" } : ParsedTweet) {}).2).2).2.feedback.entries.length = 2
    ∧ ¬ ((QueueManager.approve "n2" "t1"
          (QueueManager.approve "n1" "t1"
            (QueueManager.add "n0" ({ tweet_id := "t1" } : ParsedTweet) {}).2).2).2.feedback.entries.length = 1) := by
  refine ⟨by decide, by decide, by decide⟩

/-- C3 (amended) — `approve` is idempotent on the stores: when a first
`approve(id)` succeeds, a second call succeeds, leaves pending and
processed exactly as they were after the first call, but appends one
further feedback entry (each successful call logs unconditionally). -/
theorem QueueManager.approve_idempotent_stores (now now' id : String) (s : QueueState)
    (h : (QueueManager.approve now id s).1 = true) :
    (QueueManager.approve now' id (QueueManager.approve now id s).2).1 = true
    ∧ (QueueManager.approve now' id (QueueManager.approve now id s).2).2.pending
      = (QueueManager.approve now id s).2.pending
    ∧ (QueueManager.approve now' id (QueueManager.approve now id s).2).2.processed
      = (QueueManager.approve now id s).2.processed
    ∧ (QueueManager.approve now' id (QueueManager.approve now id s).2).2.feedback.entries.length
      = (QueueManager.approve now id s).2.feedback.entries.length + 1 := by
  cases h1 : QueueManager.updateFirst id (fun x => { x with status := "approved" }) s.pending with
  | none => simp [QueueManager.approve, h1] at h
  | some p =>
    obtain ⟨u, l'⟩ := p
    have h2 := QueueManager.updateFirst_approve_again id s.pending l' u h1
    simp [QueueManager.approve, h1, h2, QueueManager.record_feedback_entries]

/-- C3 witness: concrete two-step approval via the amended theorem. -/
theorem QueueManager.approve_idempotent_stores_witness :
    (QueueManager.approve "n2" "t1"
      (QueueManager.approve "n1" "t1"
        (QueueManager.add "n0" ({ tweet_id := "t1" } : ParsedTweet) {}).2).2).1 = true
    ∧ (QueueManager.approve "n2" "t1"
        (QueueManager.approve "n1" "t1"
          (QueueManager.add "n0" ({ tweet_id := "t1" } : ParsedTweet) {}).2).2).2.feedback.entries.length
      = (QueueManager.approve "n1" "t1"
          (QueueManager.add "n0" ({ tweet_id := "t1" } : ParsedTweet) {}).2).2.feedback.entries.length + 1 := by
  have h := QueueManager.approve_idempotent_stores "n1" "n2" "t1"
    (QueueManager.add "n0" ({ tweet_id := "t1" } : ParsedTweet) {}).2 (by decide)
  exact ⟨h.1, h.2.2.2⟩

/-- C4 counterexample — `approve_all_pending` transitions a pending record
to `approved` (count 1) yet appends **no** feedback entry: bulk approval
bypasses the feedback log. -/
theorem QueueManager.approve_all_pending_no_feedback :
    (QueueManager.approve_all_pending
      (QueueManager.add "n0" ({ tweet_id := "t1" } : ParsedTweet) {}).2).1 = 1
    ∧ ((QueueManager.approve_all_pending
        (QueueManager.add "n0" ({ tweet_id := "t1" } : ParsedTweet) {}).2).2.pending.map
          (·.status)) = ["approved"]
    ∧ (QueueManager.approve_all_pending
        (QueueManager.add "n0" ({ tweet_id := "t1" } : ParsedTweet) {}).2).2.feedback.entries.length = 0
    ∧ ¬ ((QueueManager.approve_all_pending
        (QueueManager.add "n0" ({ tweet_id := "t1" } : ParsedTweet) {}).2).2.feedback.entries.length = 1) := by
  refine ⟨by decide, by decide, by decide, by decide⟩

/-- C4 (amended) — each successful single-record curation transition
(`approve`, `skip_with_reason`) appends exactly one feedback entry, but the
bulk `approve_all_pending` appends none (it leaves the feedback file
untouched). -/
theorem QueueManager.curation_feedback_spec (now id reason note : String) (s : QueueState) :
    ((QueueManager.approve now id s).1 = true →
      (QueueManager.approve now id s).2.feedback.entries.length
        = s.feedback.entries.length + 1)
    ∧ ((QueueManager.skip_with_reason now id reason note s).1 = true →
      (QueueManager.skip_with_reason now id reason note s).2.feedback.entries.length
        = s.feedback.entries.length + 1)
    ∧ (QueueManager.approve_all_pending s).2.feedback = s.feedback := by
  refine ⟨?_, ?_, rfl⟩
  · intro h
    cases h1 : QueueManager.updateFirst id (fun x => { x with status := "approved" }) s.pending with
    | none => simp [QueueManager.approve, h1] at h
    | some p =>
      obtain ⟨u, l'⟩ := p
      simp [QueueManager.approve, h1, QueueManager.record_feedback_entries]
  · intro h
    cases h1 : QueueManager.updateFirst id
        (fun x => { x with status := "skipped", skip_reason := reason,
                           feedback_note := note }) s.pending with
    | none => simp [QueueManager.skip_with_reason, h1] at h
    | some p =>
      obtain ⟨u, l'⟩ := p
      simp [QueueManager.skip_with_reason, h1, QueueManager.record_feedback_entries]

/-- C4 witness: one approve and one skip each log exactly one entry on a
fresh queue. -/
theorem QueueManager.curation_feedback_spec_witness :
    (QueueManager.approve "n1" "t1"
      (QueueManager.add "n0" ({ tweet_id := "t1" } : ParsedTweet) {}).2).2.feedback.entries.length = 1
    ∧ (QueueManager.skip_with_reason "n1" "t1" "low_quality" ""
        (QueueManager.add "n0" ({ tweet_id := "t1" } : ParsedTweet) {}).2).2.feedback.entries.length = 1 := by
  have h1 := QueueManager.curation_feedback_spec "n1" "t1" "low_quality" ""
    (QueueManager.add "n0" ({ tweet_id := "t1" } : ParsedTweet) {}).2
  exact ⟨h1.1 (by decide), h1.2.1 (by decide)⟩

/-! ## Theorems — URL round-trip (Tweet Normalizer) -/

/-- The `dropWhile` of an everywhere-failing list is the list itself. -/
theorem dropWhile_all_neg {α : Type} (p : α → Bool) (l : List α)
    (h : ∀ x ∈ l, p x = false) : l.dropWhile p = l := by
  induction l with
  | nil => rfl
  | cons a t ih =>
    have := h a (by simp)
    simp [List.dropWhile, this]

namespace TweetParse

/-- The `expectStr` strips off its exact literal. -/
theorem expectStr_append (lit r : List Char) : expectStr lit (lit ++ r) = some r := by
  induction lit with
  | nil => rfl
  | cons c cs ih => simp [expectStr, ih]

/-- A word character is not whitespace. -/
theorem isWordChar_not_ws (c : Char) (h : isWordChar c = true) :
    c.isWhitespace = false := by
  rcases Bool.eq_false_or_eq_true c.isWhitespace with ht | hf
  · exfalso
    have hc : ((c = ' ' ∨ c = '\t') ∨ c = '\x0d') ∨ c = '\n' := by
      simpa [Char.isWhitespace] using ht
    rw [or_assoc, or_assoc] at hc
    rcases hc with h1 | h1 | h1 | h1 <;> subst h1 <;> exact absurd h (by decide)
  · exact hf

/-- A digit is not whitespace. -/
theorem isDigit_not_ws (c : Char) (h : c.isDigit = true) :
    c.isWhitespace = false := by
  rcases Bool.eq_false_or_eq_true c.isWhitespace with ht | hf
  · exfalso
    have hc : ((c = ' ' ∨ c = '\t') ∨ c = '\x0d') ∨ c = '\n' := by
      simpa [Char.isWhitespace] using ht
    rw [or_assoc, or_assoc] at hc
    rcases hc with h1 | h1 | h1 | h1 <;> subst h1 <;> exact absurd h (by decide)
  · exact hf

/-- A word character is not `'?'`. -/
theorem isWordChar_ne_q (c : Char) (h : isWordChar c = true) : c ≠ '?' := by
  intro h1; subst h1; exact absurd h (by decide)

/-- A digit is not `'?'`. -/
theorem isDigit_ne_q (c : Char) (h : c.isDigit = true) : c ≠ '?' := by
  intro h1; subst h1; exact absurd h (by decide)

/-- The `strip()` of a whitespace-free string is itself. -/
theorem stripChars_eq_self (l : List Char) (h : ∀ c ∈ l, c.isWhitespace = false) :
    stripChars l = l := by
  unfold stripChars
  rw [dropWhile_all_neg _ _ h,
      dropWhile_all_neg _ _ (fun c hc => h c (List.mem_reverse.1 hc)),
      List.reverse_reverse]

/-- The core capture: `(\w+)/status/(\d+)` on `user ++ "/status/" ++ id`. -/
theorem parseUserStatusId_spec (user id : List Char)
    (hu : user ≠ []) (huw : ∀ c ∈ user, isWordChar c = true)
    (hid : id ≠ []) (hidd : ∀ c ∈ id, c.isDigit = true) :
    parseUserStatusId (user ++ "/status/".data ++ id) = some (user, id) := by
  have key : user ++ "/status/".data ++ id = user ++ '/' :: ("status/".data ++ id) := by
    rw [List.append_assoc]; rfl
  have htake : (user ++ "/status/".data ++ id).takeWhile isWordChar = user := by
    rw [key]; exact takeWhile_append_pos_neg _ user '/' _ huw (by decide)
  have hdrop : (user ++ "/status/".data ++ id).dropWhile isWordChar
      = '/' :: ("status/".data ++ id) := by
    rw [key]; exact dropWhile_append_pos_neg _ user '/' _ huw (by decide)
  have huser_ne : user.isEmpty = false := by
    cases user with
    | nil => exact absurd rfl hu
    | cons a t => rfl
  have hid_ne : id.isEmpty = false := by
    cases id with
    | nil => exact absurd rfl hid
    | cons a t => rfl
  have hexp : expectStr "/status/".data ('/' :: ("status/".data ++ id)) = some id :=
    expectStr_append "/status/".data id
  unfold parseUserStatusId
  rw [htake, hdrop]
  simp only [huser_ne, Bool.false_eq_true, if_false, hexp,
             takeWhile_all _ id hidd, hid_ne]

/-- The `https?://` strips an explicit `https://`. -/
theorem parseScheme_https (r : List Char) :
    parseScheme ("https://".data ++ r) = some r := by
  unfold parseScheme
  rw [expectStr_append]

/-- The `https?://` strips an explicit `http://`. -/
theorem parseScheme_http (r : List Char) :
    parseScheme ("http://".data ++ r) = some r := by
  unfold parseScheme
  have hmiss : expectStr "https://".data ("http://".data ++ r) = none := rfl
  rw [hmiss, expectStr_append]

/-- A failing host alternative passes to the next one. -/
theorem tryHosts_cons_miss (h : List Char) (hs : List (List Char)) (r : List Char)
    (hmiss : expectStr (h ++ ['/']) r = none) :
    tryHosts (h :: hs) r = tryHosts hs r := by
  simp [tryHosts, hmiss]

/-- A matching host alternative hands over to the user/status capture. -/
theorem tryHosts_cons_hit (h : List Char) (hs : List (List Char)) (r rest : List Char)
    (hhit : expectStr (h ++ ['/']) r = some rest) :
    tryHosts (h :: hs) r = parseUserStatusId rest := by
  simp [tryHosts, hhit]

end TweetParse

/-- The `strip()` then query-split leave a clean tweet URL untouched. -/
theorem TweetParse.clean_of_url (P user id : List Char)
    (hP : ∀ c ∈ P, c.isWhitespace = false ∧ c ≠ '?')
    (huw : ∀ c ∈ user, TweetParse.isWordChar c = true)
    (hidd : ∀ c ∈ id, c.isDigit = true) :
    (TweetParse.stripChars (P ++ user ++ "/status/".data ++ id)).takeWhile (fun c => c ≠ '?')
      = P ++ user ++ "/status/".data ++ id := by
  have hws : ∀ c ∈ P ++ user ++ "/status/".data ++ id, c.isWhitespace = false := by
    intro c hc
    rcases List.mem_append.1 hc with hc1 | hcid
    · rcases List.mem_append.1 hc1 with hc2 | hcM
      · rcases List.mem_append.1 hc2 with hcP | hcU
        · exact (hP c hcP).1
        · exact TweetParse.isWordChar_not_ws c (huw c hcU)
      · exact (by decide : ∀ c ∈ "/status/".data, c.isWhitespace = false) c hcM
    · exact TweetParse.isDigit_not_ws c (hidd c hcid)
  have hq : ∀ c ∈ P ++ user ++ "/status/".data ++ id, (decide (c ≠ '?')) = true := by
    intro c hc
    rcases List.mem_append.1 hc with hc1 | hcid
    · rcases List.mem_append.1 hc1 with hc2 | hcM
      · rcases List.mem_append.1 hc2 with hcP | hcU
        · exact decide_eq_true (hP c hcP).2
        · exact decide_eq_true (TweetParse.isWordChar_ne_q c (huw c hcU))
      · exact (by decide : ∀ c ∈ "/status/".data, (decide (c ≠ '?')) = true) c hcM
    · exact decide_eq_true (TweetParse.isDigit_ne_q c (hidd c hcid))
  rw [TweetParse.stripChars_eq_self _ hws]
  exact takeWhile_all _ _ hq

/-- C8 — URL round-trip: for every username of word characters and every
numeric tweet id, `parse_url` recovers exactly `(user, id)` from the URL of
every supported shape (both schemes, all six hosts), and in particular from
`build_url user id`. -/
theorem TweetParse.url_roundtrip (scheme host user id : List Char)
    (hsch : scheme = "https://".data ∨ scheme = "http://".data)
    (hhost : host = "x.com".data ∨ host = "twitter.com".data ∨
             host = "mobile.x.com".data ∨ host = "mobile.twitter.com".data ∨
             host = "vxtwitter.com".data ∨ host = "fxtwitter.com".data)
    (hu : user ≠ []) (huw : ∀ c ∈ user, TweetParse.isWordChar c = true)
    (hid : id ≠ []) (hidd : ∀ c ∈ id, c.isDigit = true) :
    TweetParse.parse_url (scheme ++ host ++ "/".data ++ user ++ "/status/".data ++ id)
      = some (user, id)
    ∧ TweetParse.parse_url (TweetParse.build_url user id) = some (user, id) := by
  constructor
  case right =>
    show TweetParse.parse_url ("https://x.com/".data ++ user ++ "/status/".data ++ id) = some (user, id)
    have e1 := TweetParse.clean_of_url "https://x.com/".data user id (by decide) huw hidd
    simp only [TweetParse.parse_url]
    rw [e1]
    have hps : TweetParse.parseScheme ("https://x.com/".data ++ user ++ "/status/".data ++ id)
        = some ("x.com/".data ++ (user ++ "/status/".data ++ id)) :=
      TweetParse.parseScheme_https ("x.com/".data ++ (user ++ "/status/".data ++ id))
    have hm1 : TweetParse.matchPat ["x.com".data, "twitter.com".data] ("https://x.com/".data ++ user ++ "/status/".data ++ id) = some (user, id) := by
      unfold TweetParse.matchPat
      rw [hps]
      show TweetParse.tryHosts ["x.com".data, "twitter.com".data] ("x.com/".data ++ (user ++ "/status/".data ++ id)) = some (user, id)
      have hhit : TweetParse.expectStr ("x.com".data ++ ['/']) ("x.com/".data ++ (user ++ "/status/".data ++ id)) = some (user ++ "/status/".data ++ id) :=
        TweetParse.expectStr_append "x.com/".data (user ++ "/status/".data ++ id)
      rw [TweetParse.tryHosts_cons_hit _ _ _ _ hhit]
      exact TweetParse.parseUserStatusId_spec user id hu huw hid hidd
    rw [hm1]
  case left =>
    rcases hsch with h | h <;> subst h <;>
      rcases hhost with h | h | h | h | h | h <;> subst h
    · show TweetParse.parse_url ("https://x.com/".data ++ user ++ "/status/".data ++ id) = some (user, id)
      have e1 := TweetParse.clean_of_url "https://x.com/".data user id (by decide) huw hidd
      simp only [TweetParse.parse_url]
      rw [e1]
      have hps : TweetParse.parseScheme ("https://x.com/".data ++ user ++ "/status/".data ++ id)
          = some ("x.com/".data ++ (user ++ "/status/".data ++ id)) :=
        TweetParse.parseScheme_https ("x.com/".data ++ (user ++ "/status/".data ++ id))
      have hm1 : TweetParse.matchPat ["x.com".data, "twitter.com".data] ("https://x.com/".data ++ user ++ "/status/".data ++ id) = some (user, id) := by
        unfold TweetParse.matchPat
        rw [hps]
        show TweetParse.tryHosts ["x.com".data, "twitter.com".data] ("x.com/".data ++ (user ++ "/status/".data ++ id)) = some (user, id)
        have hhit : TweetParse.expectStr ("x.com".data ++ ['/']) ("x.com/".data ++ (user ++ "/status/".data ++ id)) = some (user ++ "/status/".data ++ id) :=
          TweetParse.expectStr_append "x.com/".data (user ++ "/status/".data ++ id)
        rw [TweetParse.tryHosts_cons_hit _ _ _ _ hhit]
        exact TweetParse.parseUserStatusId_spec user id hu huw hid hidd
      rw [hm1]
    · show TweetParse.parse_url ("https://twitter.com/".data ++ user ++ "/status/".data ++ id) = some (user, id)
      have e1 := TweetParse.clean_of_url "https://twitter.com/".data user id (by decide) huw hidd
      simp only [TweetParse.parse_url]
      rw [e1]
      have hps : TweetParse.parseScheme ("https://twitter.com/".data ++ user ++ "/status/".data ++ id)
          = some ("twitter.com/".data ++ (user ++ "/status/".data ++ id)) :=
        TweetParse.parseScheme_https ("twitter.com/".data ++ (user ++ "/status/".data ++ id))
      have hm1 : TweetParse.matchPat ["x.com".data, "twitter.com".data] ("https://twitter.com/".data ++ user ++ "/status/".data ++ id) = some (user, id) := by
        unfold TweetParse.matchPat
        rw [hps]
        show TweetParse.tryHosts ["x.com".data, "twitter.com".data] ("twitter.com/".data ++ (user ++ "/status/".data ++ id)) = some (user, id)
        have hms1_0 : TweetParse.expectStr ("x.com".data ++ ['/']) ("twitter.com/".data ++ (user ++ "/status/".data ++ id)) = none := rfl
        rw [TweetParse.tryHosts_cons_miss _ _ _ hms1_0]
        have hhit : TweetParse.expectStr ("twitter.com".data ++ ['/']) ("twitter.com/".data ++ (user ++ "/status/".data ++ id)) = some (user ++ "/status/".data ++ id) :=
          TweetParse.expectStr_append "twitter.com/".data (user ++ "/status/".data ++ id)
        rw [TweetParse.tryHosts_cons_hit _ _ _ _ hhit]
        exact TweetParse.parseUserStatusId_spec user id hu huw hid hidd
      rw [hm1]
    · show TweetParse.parse_url ("https://mobile.x.com/".data ++ user ++ "/status/".data ++ id) = some (user, id)
      have e1 := TweetParse.clean_of_url "https://mobile.x.com/".data user id (by decide) huw hidd
      simp only [TweetParse.parse_url]
      rw [e1]
      have hps : TweetParse.parseScheme ("https://mobile.x.com/".data ++ user ++ "/status/".data ++ id)
          = some ("mobile.x.com/".data ++ (user ++ "/status/".data ++ id)) :=
        TweetParse.parseScheme_https ("mobile.x.com/".data ++ (user ++ "/status/".data ++ id))
      have hm1 : TweetParse.matchPat ["x.com".data, "twitter.com".data] ("https://mobile.x.com/".data ++ user ++ "/status/".data ++ id) = none := by
        unfold TweetParse.matchPat
        rw [hps]
        show TweetParse.tryHosts ["x.com".data, "twitter.com".data] ("mobile.x.com/".data ++ (user ++ "/status/".data ++ id)) = none
        have hms1_0 : TweetParse.expectStr ("x.com".data ++ ['/']) ("mobile.x.com/".data ++ (user ++ "/status/".data ++ id)) = none := rfl
        rw [TweetParse.tryHosts_cons_miss _ _ _ hms1_0]
        have hms1_1 : TweetParse.expectStr ("twitter.com".data ++ ['/']) ("mobile.x.com/".data ++ (user ++ "/status/".data ++ id)) = none := rfl
        rw [TweetParse.tryHosts_cons_miss _ _ _ hms1_1]
        rfl
      rw [hm1]
      have hm2 : TweetParse.matchPat ["mobile.x.com".data, "mobile.twitter.com".data] ("https://mobile.x.com/".data ++ user ++ "/status/".data ++ id) = some (user, id) := by
        unfold TweetParse.matchPat
        rw [hps]
        show TweetParse.tryHosts ["mobile.x.com".data, "mobile.twitter.com".data] ("mobile.x.com/".data ++ (user ++ "/status/".data ++ id)) = some (user, id)
        have hhit : TweetParse.expectStr ("mobile.x.com".data ++ ['/']) ("mobile.x.com/".data ++ (user ++ "/status/".data ++ id)) = some (user ++ "/status/".data ++ id) :=
          TweetParse.expectStr_append "mobile.x.com/".data (user ++ "/status/".data ++ id)
        rw [TweetParse.tryHosts_cons_hit _ _ _ _ hhit]
        exact TweetParse.parseUserStatusId_spec user id hu huw hid hidd
      rw [hm2]
    · show TweetParse.parse_url ("https://mobile.twitter.com/".data ++ user ++ "/status/".data ++ id) = some (user, id)
      have e1 := TweetParse.clean_of_url "https://mobile.twitter.com/".data user id (by decide) huw hidd
      simp only [TweetParse.parse_url]
      rw [e1]
      have hps : TweetParse.parseScheme ("https://mobile.twitter.com/".data ++ user ++ "/status/".data ++ id)
          = some ("mobile.twitter.com/".data ++ (user ++ "/status/".data ++ id)) :=
        TweetParse.parseScheme_https ("mobile.twitter.com/".data ++ (user ++ "/status/".data ++ id))
      have hm1 : TweetParse.matchPat ["x.com".data, "twitter.com".data] ("https://mobile.twitter.com/".data ++ user ++ "/status/".data ++ id) = none := by
        unfold TweetParse.matchPat
        rw [hps]
        show TweetParse.tryHosts ["x.com".data, "twitter.com".data] ("mobile.twitter.com/".data ++ (user ++ "/status/".data ++ id)) = none
        have hms1_0 : TweetParse.expectStr ("x.com".data ++ ['/']) ("mobile.twitter.com/".data ++ (user ++ "/status/".data ++ id)) = none := rfl
        rw [TweetParse.tryHosts_cons_miss _ _ _ hms1_0]
        have hms1_1 : TweetParse.expectStr ("twitter.com".data ++ ['/']) ("mobile.twitter.com/".data ++ (user ++ "/status/".data ++ id)) = none := rfl
        rw [TweetParse.tryHosts_cons_miss _ _ _ hms1_1]
        rfl
      rw [hm1]
      have hm2 : TweetParse.matchPat ["mobile.x.com".data, "mobile.twitter.com".data] ("https://mobile.twitter.com/".data ++ user ++ "/status/".data ++ id) = some (user, id) := by
        unfold TweetParse.matchPat
        rw [hps]
        show TweetParse.tryHosts ["mobile.x.com".data, "mobile.twitter.com".data] ("mobile.twitter.com/".data ++ (user ++ "/status/".data ++ id)) = some (user, id)
        have hms2_0 : TweetParse.expectStr ("mobile.x.com".data ++ ['/']) ("mobile.twitter.com/".data ++ (user ++ "/status/".data ++ id)) = none := rfl
        rw [TweetParse.tryHosts_cons_miss _ _ _ hms2_0]
        have hhit : TweetParse.expectStr ("mobile.twitter.com".data ++ ['/']) ("mobile.twitter.com/".data ++ (user ++ "/status/".data ++ id)) = some (user ++ "/status/".data ++ id) :=
          TweetParse.expectStr_append "mobile.twitter.com/".data (user ++ "/status/".data ++ id)
        rw [TweetParse.tryHosts_cons_hit _ _ _ _ hhit]
        exact TweetParse.parseUserStatusId_spec user id hu huw hid hidd
      rw [hm2]
    · show TweetParse.parse_url ("https://vxtwitter.com/".data ++ user ++ "/status/".data ++ id) = some (user, id)
      have e1 := TweetParse.clean_of_url "https://vxtwitter.com/".data user id (by decide) huw hidd
      simp only [TweetParse.parse_url]
      rw [e1]
      have hps : TweetParse.parseScheme ("https://vxtwitter.com/".data ++ user ++ "/status/".data ++ id)
          = some ("vxtwitter.com/".data ++ (user ++ "/status/".data ++ id)) :=
        TweetParse.parseScheme_https ("vxtwitter.com/".data ++ (user ++ "/status/".data ++ id))
      have hm1 : TweetParse.matchPat ["x.com".data, "twitter.com".data] ("https://vxtwitter.com/".data ++ user ++ "/status/".data ++ id) = none := by
        unfold TweetParse.matchPat
        rw [hps]
        show TweetParse.tryHosts ["x.com".data, "twitter.com".data] ("vxtwitter.com/".data ++ (user ++ "/status/".data ++ id)) = none
        have hms1_0 : TweetParse.expectStr ("x.com".data ++ ['/']) ("vxtwitter.com/".data ++ (user ++ "/status/".data ++ id)) = none := rfl
        rw [TweetParse.tryHosts_cons_miss _ _ _ hms1_0]
        have hms1_1 : TweetParse.expectStr ("twitter.com".data ++ ['/']) ("vxtwitter.com/".data ++ (user ++ "/status/".data ++ id)) = none := rfl
        rw [TweetParse.tryHosts_cons_miss _ _ _ hms1_1]
        rfl
      rw [hm1]
      have hm2 : TweetParse.matchPat ["mobile.x.com".data, "mobile.twitter.com".data] ("https://vxtwitter.com/".data ++ user ++ "/status/".data ++ id) = none := by
        unfold TweetParse.matchPat
        rw [hps]
        show TweetParse.tryHosts ["mobile.x.com".data, "mobile.twitter.com".data] ("vxtwitter.com/".data ++ (user ++ "/status/".data ++ id)) = none
        have hms2_0 : TweetParse.expectStr ("mobile.x.com".data ++ ['/']) ("vxtwitter.com/".data ++ (user ++ "/status/".data ++ id)) = none := rfl
        rw [TweetParse.tryHosts_cons_miss _ _ _ hms2_0]
        have hms2_1 : TweetParse.expectStr ("mobile.twitter.com".data ++ ['/']) ("vxtwitter.com/".data ++ (user ++ "/status/".data ++ id)) = none := rfl
        rw [TweetParse.tryHosts_cons_miss _ _ _ hms2_1]
        rfl
      rw [hm2]
      have hm3 : TweetParse.matchPat ["vxtwitter.com".data, "fxtwitter.com".data] ("https://vxtwitter.com/".data ++ user ++ "/status/".data ++ id) = some (user, id) := by
        unfold TweetParse.matchPat
        rw [hps]
        show TweetParse.tryHosts ["vxtwitter.com".data, "fxtwitter.com".data] ("vxtwitter.com/".data ++ (user ++ "/status/".data ++ id)) = some (user, id)
        have hhit : TweetParse.expectStr ("vxtwitter.com".data ++ ['/']) ("vxtwitter.com/".data ++ (user ++ "/status/".data ++ id)) = some (user ++ "/status/".data ++ id) :=
          TweetParse.expectStr_append "vxtwitter.com/".data (user ++ "/status/".data ++ id)
        rw [TweetParse.tryHosts_cons_hit _ _ _ _ hhit]
        exact TweetParse.parseUserStatusId_spec user id hu huw hid hidd
      rw [hm3]
    · show TweetParse.parse_url ("https://fxtwitter.com/".data ++ user ++ "/status/".data ++ id) = some (user, id)
      have e1 := TweetParse.clean_of_url "https://fxtwitter.com/".data user id (by decide) huw hidd
      simp only [TweetParse.parse_url]
      rw [e1]
      have hps : TweetParse.parseScheme ("https://fxtwitter.com/".data ++ user ++ "/status/".data ++ id)
          = some ("fxtwitter.com/".data ++ (user ++ "/status/".data ++ id)) :=
        TweetParse.parseScheme_https ("fxtwitter.com/".data ++ (user ++ "/status/".data ++ id))
      have hm1 : TweetParse.matchPat ["x.com".data, "twitter.com".data] ("https://fxtwitter.com/".data ++ user ++ "/status/".data ++ id) = none := by
        unfold TweetParse.matchPat
        rw [hps]
        show TweetParse.tryHosts ["x.com".data, "twitter.com".data] ("fxtwitter.com/".data ++ (user ++ "/status/".data ++ id)) = none
        have hms1_0 : TweetParse.expectStr ("x.com".data ++ ['/']) ("fxtwitter.com/".data ++ (user ++ "/status/".data ++ id)) = none := rfl
        rw [TweetParse.tryHosts_cons_miss _ _ _ hms1_0]
        have hms1_1 : TweetParse.expectStr ("twitter.com".data ++ ['/']) ("fxtwitter.com/".data ++ (user ++ "/status/".data ++ id)) = none := rfl
        rw [TweetParse.tryHosts_cons_miss _ _ _ hms1_1]
        rfl
      rw [hm1]
      have hm2 : TweetParse.matchPat ["mobile.x.com".data, "mobile.twitter.com".data] ("https://fxtwitter.com/".data ++ user ++ "/status/".data ++ id) = none := by
        unfold TweetParse.matchPat
        rw [hps]
        show TweetParse.tryHosts ["mobile.x.com".data, "mobile.twitter.com".data] ("fxtwitter.com/".data ++ (user ++ "/status/".data ++ id)) = none
        have hms2_0 : TweetParse.expectStr ("mobile.x.com".data ++ ['/']) ("fxtwitter.com/".data ++ (user ++ "/status/".data ++ id)) = none := rfl
        rw [TweetParse.tryHosts_cons_miss _ _ _ hms2_0]
        have hms2_1 : TweetParse.expectStr ("mobile.twitter.com".data ++ ['/']) ("fxtwitter.com/".data ++ (user ++ "/status/".data ++ id)) = none := rfl
        rw [TweetParse.tryHosts_cons_miss _ _ _ hms2_1]
        rfl
      rw [hm2]
      have hm3 : TweetParse.matchPat ["vxtwitter.com".data, "fxtwitter.com".data] ("https://fxtwitter.com/".data ++ user ++ "/status/".data ++ id) = some (user, id) := by
        unfold TweetParse.matchPat
        rw [hps]
        show TweetParse.tryHosts ["vxtwitter.com".data, "fxtwitter.com".data] ("fxtwitter.com/".data ++ (user ++ "/status/".data ++ id)) = some (user, id)
        have hms3_0 : TweetParse.expectStr ("vxtwitter.com".data ++ ['/']) ("fxtwitter.com/".data ++ (user ++ "/status/".data ++ id)) = none := rfl
        rw [TweetParse.tryHosts_cons_miss _ _ _ hms3_0]
        have hhit : TweetParse.expectStr ("fxtwitter.com".data ++ ['/']) ("fxtwitter.com/".data ++ (user ++ "/status/".data ++ id)) = some (user ++ "/status/".data ++ id) :=
          TweetParse.expectStr_append "fxtwitter.com/".data (user ++ "/status/".data ++ id)
        rw [TweetParse.tryHosts_cons_hit _ _ _ _ hhit]
        exact TweetParse.parseUserStatusId_spec user id hu huw hid hidd
      rw [hm3]
    · show TweetParse.parse_url ("http://x.com/".data ++ user ++ "/status/".data ++ id) = some (user, id)
      have e1 := TweetParse.clean_of_url "http://x.com/".data user id (by decide) huw hidd
      simp only [TweetParse.parse_url]
      rw [e1]
      have hps : TweetParse.parseScheme ("http://x.com/".data ++ user ++ "/status/".data ++ id)
          = some ("x.com/".data ++ (user ++ "/status/".data ++ id)) :=
        TweetParse.parseScheme_http ("x.com/".data ++ (user ++ "/status/".data ++ id))
      have hm1 : TweetParse.matchPat ["x.com".data, "twitter.com".data] ("http://x.com/".data ++ user ++ "/status/".data ++ id) = some (user, id) := by
        unfold TweetParse.matchPat
        rw [hps]
        show TweetParse.tryHosts ["x.com".data, "twitter.com".data] ("x.com/".data ++ (user ++ "/status/".data ++ id)) = some (user, id)
        have hhit : TweetParse.expectStr ("x.com".data ++ ['/']) ("x.com/".data ++ (user ++ "/status/".data ++ id)) = some (user ++ "/status/".data ++ id) :=
          TweetParse.expectStr_append "x.com/".data (user ++ "/status/".data ++ id)
        rw [TweetParse.tryHosts_cons_hit _ _ _ _ hhit]
        exact TweetParse.parseUserStatusId_spec user id hu huw hid hidd
      rw [hm1]
    · show TweetParse.parse_url ("http://twitter.com/".data ++ user ++ "/status/".data ++ id) = some (user, id)
      have e1 := TweetParse.clean_of_url "http://twitter.com/".data user id (by decide) huw hidd
      simp only [TweetParse.parse_url]
      rw [e1]
      have hps : TweetParse.parseScheme ("http://twitter.com/".data ++ user ++ "/status/".data ++ id)
          = some ("twitter.com/".data ++ (user ++ "/status/".data ++ id)) :=
        TweetParse.parseScheme_http ("twitter.com/".data ++ (user ++ "/status/".data ++ id))
      have hm1 : TweetParse.matchPat ["x.com".data, "twitter.com".data] ("http://twitter.com/".data ++ user ++ "/status/".data ++ id) = some (user, id) := by
        unfold TweetParse.matchPat
        rw [hps]
        show TweetParse.tryHosts ["x.com".data, "twitter.com".data] ("twitter.com/".data ++ (user ++ "/status/".data ++ id)) = some (user, id)
        have hms1_0 : TweetParse.expectStr ("x.com".data ++ ['/']) ("twitter.com/".data ++ (user ++ "/status/".data ++ id)) = none := rfl
        rw [TweetParse.tryHosts_cons_miss _ _ _ hms1_0]
        have hhit : TweetParse.expectStr ("twitter.com".data ++ ['/']) ("twitter.com/".data ++ (user ++ "/status/".data ++ id)) = some (user ++ "/status/".data ++ id) :=
          TweetParse.expectStr_append "twitter.com/".data (user ++ "/status/".data ++ id)
        rw [TweetParse.tryHosts_cons_hit _ _ _ _ hhit]
        exact TweetParse.parseUserStatusId_spec user id hu huw hid hidd
      rw [hm1]
    · show TweetParse.parse_url ("http://mobile.x.com/".data ++ user ++ "/status/".data ++ id) = some (user, id)
      have e1 := TweetParse.clean_of_url "http://mobile.x.com/".data user id (by decide) huw hidd
      simp only [TweetParse.parse_url]
      rw [e1]
      have hps : TweetParse.parseScheme ("http://mobile.x.com/".data ++ user ++ "/status/".data ++ id)
          = some ("mobile.x.com/".data ++ (user ++ "/status/".data ++ id)) :=
        TweetParse.parseScheme_http ("mobile.x.com/".data ++ (user ++ "/status/".data ++ id))
      have hm1 : TweetParse.matchPat ["x.com".data, "twitter.com".data] ("http://mobile.x.com/".data ++ user ++ "/status/".data ++ id) = none := by
        unfold TweetParse.matchPat
        rw [hps]
        show TweetParse.tryHosts ["x.com".data, "twitter.com".data] ("mobile.x.com/".data ++ (user ++ "/status/".data ++ id)) = none
        have hms1_0 : TweetParse.expectStr ("x.com".data ++ ['/']) ("mobile.x.com/".data ++ (user ++ "/status/".data ++ id)) = none := rfl
        rw [TweetParse.tryHosts_cons_miss _ _ _ hms1_0]
        have hms1_1 : TweetParse.expectStr ("twitter.com".data ++ ['/']) ("mobile.x.com/".data ++ (user ++ "/status/".data ++ id)) = none := rfl
        rw [TweetParse.tryHosts_cons_miss _ _ _ hms1_1]
        rfl
      rw [hm1]
      have hm2 : TweetParse.matchPat ["mobile.x.com".data, "mobile.twitter.com".data] ("http://mobile.x.com/".data ++ user ++ "/status/".data ++ id) = some (user, id) := by
        unfold TweetParse.matchPat
        rw [hps]
        show TweetParse.tryHosts ["mobile.x.com".data, "mobile.twitter.com".data] ("mobile.x.com/".data ++ (user ++ "/status/".data ++ id)) = some (user, id)
        have hhit : TweetParse.expectStr ("mobile.x.com".data ++ ['/']) ("mobile.x.com/".data ++ (user ++ "/status/".data ++ id)) = some (user ++ "/status/".data ++ id) :=
          TweetParse.expectStr_append "mobile.x.com/".data (user ++ "/status/".data ++ id)
        rw [TweetParse.tryHosts_cons_hit _ _ _ _ hhit]
        exact TweetParse.parseUserStatusId_spec user id hu huw hid hidd
      rw [hm2]
    · show TweetParse.parse_url ("http://mobile.twitter.com/".data ++ user ++ "/status/".data ++ id) = some (user, id)
      have e1 := TweetParse.clean_of_url "http://mobile.twitter.com/".data user id (by decide) huw hidd
      simp only [TweetParse.parse_url]
      rw [e1]
      have hps : TweetParse.parseScheme ("http://mobile.twitter.com/".data ++ user ++ "/status/".data ++ id)
          = some ("mobile.twitter.com/".data ++ (user ++ "/status/".data ++ id)) :=
        TweetParse.parseScheme_http ("mobile.twitter.com/".data ++ (user ++ "/status/".data ++ id))
      have hm1 : TweetParse.matchPat ["x.com".data, "twitter.com".data] ("http://mobile.twitter.com/".data ++ user ++ "/status/".data ++ id) = none := by
        unfold TweetParse.matchPat
        rw [hps]
        show TweetParse.tryHosts ["x.com".data, "twitter.com".data] ("mobile.twitter.com/".data ++ (user ++ "/status/".data ++ id)) = none
        have hms1_0 : TweetParse.expectStr ("x.com".data ++ ['/']) ("mobile.twitter.com/".data ++ (user ++ "/status/".data ++ id)) = none := rfl
        rw [TweetParse.tryHosts_cons_miss _ _ _ hms1_0]
        have hms1_1 : TweetParse.expectStr ("twitter.com".data ++ ['/']) ("mobile.twitter.com/".data ++ (user ++ "/status/".data ++ id)) = none := rfl
        rw [TweetParse.tryHosts_cons_miss _ _ _ hms1_1]
        rfl
      rw [hm1]
      have hm2 : TweetParse.matchPat ["mobile.x.com".data, "mobile.twitter.com".data] ("http://mobile.twitter.com/".data ++ user ++ "/status/".data ++ id) = some (user, id) := by
        unfold TweetParse.matchPat
        rw [hps]
        show TweetParse.tryHosts ["mobile.x.com".data, "mobile.twitter.com".data] ("mobile.twitter.com/".data ++ (user ++ "/status/".data ++ id)) = some (user, id)
        have hms2_0 : TweetParse.expectStr ("mobile.x.com".data ++ ['/']) ("mobile.twitter.com/".data ++ (user ++ "/status/".data ++ id)) = none := rfl
        rw [TweetParse.tryHosts_cons_miss _ _ _ hms2_0]
        have hhit : TweetParse.expectStr ("mobile.twitter.com".data ++ ['/']) ("mobile.twitter.com/".data ++ (user ++ "/status/".data ++ id)) = some (user ++ "/status/".data ++ id) :=
          TweetParse.expectStr_append "mobile.twitter.com/".data (user ++ "/status/".data ++ id)
        rw [TweetParse.tryHosts_cons_hit _ _ _ _ hhit]
        exact TweetParse.parseUserStatusId_spec user id hu huw hid hidd
      rw [hm2]
    · show TweetParse.parse_url ("http://vxtwitter.com/".data ++ user ++ "/status/".data ++ id) = some (user, id)
      have e1 := TweetParse.clean_of_url "http://vxtwitter.com/".data user id (by decide) huw hidd
      simp only [TweetParse.parse_url]
      rw [e1]
      have hps : TweetParse.parseScheme ("http://vxtwitter.com/".data ++ user ++ "/status/".data ++ id)
          = some ("vxtwitter.com/".data ++ (user ++ "/status/".data ++ id)) :=
        TweetParse.parseScheme_http ("vxtwitter.com/".data ++ (user ++ "/status/".data ++ id))
      have hm1 : TweetParse.matchPat ["x.com".data, "twitter.com".data] ("http://vxtwitter.com/".data ++ user ++ "/status/".data ++ id) = none := by
        unfold TweetParse.matchPat
        rw [hps]
        show TweetParse.tryHosts ["x.com".data, "twitter.com".data] ("vxtwitter.com/".data ++ (user ++ "/status/".data ++ id)) = none
        have hms1_0 : TweetParse.expectStr ("x.com".data ++ ['/']) ("vxtwitter.com/".data ++ (user ++ "/status/".data ++ id)) = none := rfl
        rw [TweetParse.tryHosts_cons_miss _ _ _ hms1_0]
        have hms1_1 : TweetParse.expectStr ("twitter.com".data ++ ['/']) ("vxtwitter.com/".data ++ (user ++ "/status/".data ++ id)) = none := rfl
        rw [TweetParse.tryHosts_cons_miss _ _ _ hms1_1]
        rfl
      rw [hm1]
      have hm2 : TweetParse.matchPat ["mobile.x.com".data, "mobile.twitter.com".data] ("http://vxtwitter.com/".data ++ user ++ "/status/".data ++ id) = none := by
        unfold TweetParse.matchPat
        rw [hps]
        show TweetParse.tryHosts ["mobile.x.com".data, "mobile.twitter.com".data] ("vxtwitter.com/".data ++ (user ++ "/status/".data ++ id)) = none
        have hms2_0 : TweetParse.expectStr ("mobile.x.com".data ++ ['/']) ("vxtwitter.com/".data ++ (user ++ "/status/".data ++ id)) = none := rfl
        rw [TweetParse.tryHosts_cons_miss _ _ _ hms2_0]
        have hms2_1 : TweetParse.expectStr ("mobile.twitter.com".data ++ ['/']) ("vxtwitter.com/".data ++ (user ++ "/status/".data ++ id)) = none := rfl
        rw [TweetParse.tryHosts_cons_miss _ _ _ hms2_1]
        rfl
      rw [hm2]
      have hm3 : TweetParse.matchPat ["vxtwitter.com".data, "fxtwitter.com".data] ("http://vxtwitter.com/".data ++ user ++ "/status/".data ++ id) = some (user, id) := by
        unfold TweetParse.matchPat
        rw [hps]
        show TweetParse.tryHosts ["vxtwitter.com".data, "fxtwitter.com".data] ("vxtwitter.com/".data ++ (user ++ "/status/".data ++ id)) = some (user, id)
        have hhit : TweetParse.expectStr ("vxtwitter.com".data ++ ['/']) ("vxtwitter.com/".data ++ (user ++ "/status/".data ++ id)) = some (user ++ "/status/".data ++ id) :=
          TweetParse.expectStr_append "vxtwitter.com/".data (user ++ "/status/".data ++ id)
        rw [TweetParse.tryHosts_cons_hit _ _ _ _ hhit]
        exact TweetParse.parseUserStatusId_spec user id hu huw hid hidd
      rw [hm3]
    · show TweetParse.parse_url ("http://fxtwitter.com/".data ++ user ++ "/status/".data ++ id) = some (user, id)
      have e1 := TweetParse.clean_of_url "http://fxtwitter.com/".data user id (by decide) huw hidd
      simp only [TweetParse.parse_url]
      rw [e1]
      have hps : TweetParse.parseScheme ("http://fxtwitter.com/".data ++ user ++ "/status/".data ++ id)
          = some ("fxtwitter.com/".data ++ (user ++ "/status/".data ++ id)) :=
        TweetParse.parseScheme_http ("fxtwitter.com/".data ++ (user ++ "/status/".data ++ id))
      have hm1 : TweetParse.matchPat ["x.com".data, "twitter.com".data] ("http://fxtwitter.com/".data ++ user ++ "/status/".data ++ id) = none := by
        unfold TweetParse.matchPat
        rw [hps]
        show TweetParse.tryHosts ["x.com".data, "twitter.com".data] ("fxtwitter.com/".data ++ (user ++ "/status/".data ++ id)) = none
        have hms1_0 : TweetParse.expectStr ("x.com".data ++ ['/']) ("fxtwitter.com/".data ++ (user ++ "/status/".data ++ id)) = none := rfl
        rw [TweetParse.tryHosts_cons_miss _ _ _ hms1_0]
        have hms1_1 : TweetParse.expectStr ("twitter.com".data ++ ['/']) ("fxtwitter.com/".data ++ (user ++ "/status/".data ++ id)) = none := rfl
        rw [TweetParse.tryHosts_cons_miss _ _ _ hms1_1]
        rfl
      rw [hm1]
      have hm2 : TweetParse.matchPat ["mobile.x.com".data, "mobile.twitter.com".data] ("http://fxtwitter.com/".data ++ user ++ "/status/".data ++ id) = none := by
        unfold TweetParse.matchPat
        rw [hps]
        show TweetParse.tryHosts ["mobile.x.com".data, "mobile.twitter.com".data] ("fxtwitter.com/".data ++ (user ++ "/status/".data ++ id)) = none
        have hms2_0 : TweetParse.expectStr ("mobile.x.com".data ++ ['/']) ("fxtwitter.com/".data ++ (user ++ "/status/".data ++ id)) = none := rfl
        rw [TweetParse.tryHosts_cons_miss _ _ _ hms2_0]
        have hms2_1 : TweetParse.expectStr ("mobile.twitter.com".data ++ ['/']) ("fxtwitter.com/".data ++ (user ++ "/status/".data ++ id)) = none := rfl
        rw [TweetParse.tryHosts_cons_miss _ _ _ hms2_1]
        rfl
      rw [hm2]
      have hm3 : TweetParse.matchPat ["vxtwitter.com".data, "fxtwitter.com".data] ("http://fxtwitter.com/".data ++ user ++ "/status/".data ++ id) = some (user, id) := by
        unfold TweetParse.matchPat
        rw [hps]
        show TweetParse.tryHosts ["vxtwitter.com".data, "fxtwitter.com".data] ("fxtwitter.com/".data ++ (user ++ "/status/".data ++ id)) = some (user, id)
        have hms3_0 : TweetParse.expectStr ("vxtwitter.com".data ++ ['/']) ("fxtwitter.com/".data ++ (user ++ "/status/".data ++ id)) = none := rfl
        rw [TweetParse.tryHosts_cons_miss _ _ _ hms3_0]
        have hhit : TweetParse.expectStr ("fxtwitter.com".data ++ ['/']) ("fxtwitter.com/".data ++ (user ++ "/status/".data ++ id)) = some (user ++ "/status/".data ++ id) :=
          TweetParse.expectStr_append "fxtwitter.com/".data (user ++ "/status/".data ++ id)
        rw [TweetParse.tryHosts_cons_hit _ _ _ _ hhit]
        exact TweetParse.parseUserStatusId_spec user id hu huw hid hidd
      rw [hm3]

/-- C8 witness: the round-trip at `sama`/`12345` over `https://x.com`. -/
theorem TweetParse.url_roundtrip_witness :
    TweetParse.parse_url ("https://".data ++ "x.com".data ++ "/".data ++
        "sama".data ++ "/status/".data ++ "12345".data)
      = some ("sama".data, "12345".data)
    ∧ TweetParse.parse_url (TweetParse.build_url "sama".data "12345".data)
      = some ("sama".data, "12345".data) :=
  TweetParse.url_roundtrip "https://".data "x.com".data "sama".data "12345".data
    (Or.inl rfl) (Or.inl rfl) (by decide) (by decide) (by decide) (by decide)

/-! ## Theorems — API payload normalisation -/

/-- C9 counterexample — a payload carrying only `id_str` and nested
`public_metrics.like_count` normalises to an empty `tweet_id` and zero
likes: `from_api_data` reads neither `id_str` nor `public_metrics`
(the claimed mapping would give `"123"` and `7`). -/
theorem TweetParse.from_api_data_ignores_id_str_and_metrics :
    (TweetParse.from_api_data "n"
      { id_str := some "123", public_metrics := some { like_count := some 7 } }
      "x_api_v2").tweet_id = ""
    ∧ ¬ ((TweetParse.from_api_data "n"
        { id_str := some "123", public_metrics := some { like_count := some 7 } }
        "x_api_v2").tweet_id = "123")
    ∧ (TweetParse.from_api_data "n"
        { id_str := some "123", public_metrics := some { like_count := some 7 } }
        "x_api_v2").likes = 0
    ∧ ¬ ((TweetParse.from_api_data "n"
        { id_str := some "123", public_metrics := some { like_count := some 7 } }
        "x_api_v2").likes = 7) := by
  refine ⟨by decide, by decide, by decide, by decide⟩

/-- C9 (amended) — the actual `from_api_data` mapping: the tweet id comes
from `id` with fallback `tweet_id` (never `id_str`), the text from `text`
with fallback `full_text`, the author from nested `user` (fallback
`author`) via `screen_name` then `username`, the like count from
`favorite_count` with fallback `like_count`, and the remaining engagement
counters from the flat `*_count` keys only — a nested `public_metrics`
object is never read (the v2 client flattens it upstream before calling
`from_api_data`). -/
theorem TweetParse.from_api_data_mapping (now : String) (data : ApiPayload) (source : String) :
    (TweetParse.from_api_data now data source).tweet_id = data.id.getD (data.tweet_id.getD "")
    ∧ (TweetParse.from_api_data now data source).text = data.text.getD (data.full_text.getD "")
    ∧ (TweetParse.from_api_data now data source).author_username
      = ((data.user.getD (data.author.getD {})).screen_name.getD
          ((data.user.getD (data.author.getD {})).username.getD ""))
    ∧ (TweetParse.from_api_data now data source).lang = data.lang.getD ""
    ∧ (TweetParse.from_api_data now data source).likes
      = data.favorite_count.getD (data.like_count.getD 0)
    ∧ (TweetParse.from_api_data now data source).retweets = data.retweet_count.getD 0
    ∧ (TweetParse.from_api_data now data source).replies = data.reply_count.getD 0
    ∧ (TweetParse.from_api_data now data source).quotes = data.quote_count.getD 0
    ∧ (TweetParse.from_api_data now data source).bookmarks = data.bookmark_count.getD 0
    ∧ (TweetParse.from_api_data now data source).source = source :=
  ⟨rfl, rfl, rfl, rfl, rfl, rfl, rfl, rfl, rfl, rfl⟩

/-! ## Theorems — Safety Gate -/

/-- C5 — `check` is safe exactly when no hard violation was collected, and
a stripped character count outside `[40, 280]` for originals (with the
default content rules) or outside `[30, 250]` for quote-RTs always yields a
violation, hence `is_safe = false` — for every similarity backend, past
list, interval and context. -/
theorem SafetyChecker.check_spec (rules : SafetyChecker.SafetyRules)
    (ratio : String → String → ℚ) (text : String) (past : List String)
    (lastMin : Option ℤ) (isQ : Bool) (ctx : Option SafetyChecker.QuoteRtContext)
    (hmin : rules.min_length = 40) (hmax : rules.max_length = 280) :
    ((SafetyChecker.check rules ratio text past lastMin isQ ctx).is_safe = true ↔
      (SafetyChecker.check rules ratio text past lastMin isQ ctx).violations = [])
    ∧ (((isQ = false ∧ ((text.data.filter (fun c => c ≠ '\n')).length < 40 ∨
          280 < (text.data.filter (fun c => c ≠ '\n')).length)) ∨
        (isQ = true ∧ ((text.data.filter (fun c => c ≠ '\n')).length < 30 ∨
          250 < (text.data.filter (fun c => c ≠ '\n')).length))) →
      (SafetyChecker.check rules ratio text past lastMin isQ ctx).is_safe = false) := by
  have hiff : (SafetyChecker.check rules ratio text past lastMin isQ ctx).is_safe = true ↔
      (SafetyChecker.check rules ratio text past lastMin isQ ctx).violations = [] :=
    List.isEmpty_iff
  refine ⟨hiff, ?_⟩
  intro h
  have hvne : (SafetyChecker.check rules ratio text past lastMin isQ ctx).violations ≠ [] := by
    rcases h with ⟨hq, hn⟩ | ⟨hq, hn⟩ <;> subst hq <;> rcases hn with hn | hn <;>
      · intro hemp
        simp [SafetyChecker.check, hmin, hmax, List.append_eq_nil] at hemp
        simp only [ne_eq, decide_not] at hn
        obtain ⟨-, h1, h2, -⟩ := hemp
        omega
  cases hb : (SafetyChecker.check rules ratio text past lastMin isQ ctx).is_safe
  · rfl
  · exact absurd (hiff.1 hb) hvne

/-- C5 witness: a 2-character original against the default rules is
rejected, and safety is equivalent to an empty violation list there. -/
theorem SafetyChecker.check_spec_witness :
    ((SafetyChecker.check {} (fun _ _ => 0) "hi" [] none false none).is_safe = true ↔
      (SafetyChecker.check {} (fun _ _ => 0) "hi" [] none false none).violations = [])
    ∧ (SafetyChecker.check {} (fun _ _ => 0) "hi" [] none false none).is_safe = false := by
  have h := SafetyChecker.check_spec {} (fun _ _ => 0) "hi" [] none false none rfl rfl
  exact ⟨h.1, h.2 (by decide)⟩

/-! ## Theorems — Preference Scorer -/

/-- C6 — `PreferenceScorer.score` computes exactly the spec's reference
definition, for nonnegative keyword weights and disjoint preferred/avoided
topic lists (the PDCA updater maintains both). -/
theorem PreferenceScorer.score_matches_spec (prefs : PreferenceScorer.Preferences)
    (text author : String)
    (hw : ∀ p ∈ prefs.keyword_weights, (0:ℚ) ≤ p.2)
    (hdisj : ∀ t : String,
      ¬ (((prefs.preferred.map PreferenceScorer.lowerS).contains (PreferenceScorer.lowerS t) = true) ∧
         ((prefs.avoid.map PreferenceScorer.lowerS).contains (PreferenceScorer.lowerS t) = true))) :
    PreferenceScorer.score prefs text author = PreferenceScorer.score_spec prefs text author := by
  have hknn : (0:ℚ) ≤ ((prefs.keyword_weights.filter
      (fun kw => PreferenceScorer.inStr (PreferenceScorer.lowerS kw.1)
        (PreferenceScorer.lowerS text))).map (·.2)).sum := by
    apply List.sum_nonneg
    intro x hx
    obtain ⟨p, hp, rfl⟩ := List.mem_map.1 hx
    exact hw p (List.mem_of_mem_filter hp)
  simp only [PreferenceScorer.score, PreferenceScorer.score_spec]
  by_cases hb : ((prefs.blocked.map PreferenceScorer.lowerS).contains
      (PreferenceScorer.lowerS author) = true)
  · rw [if_pos hb, if_pos hb]
  · rw [if_neg hb, if_neg hb]
    simp only [PreferenceScorer.ScoreResult.mk.injEq]
    refine ⟨?_, trivial, trivial, trivial, trivial⟩
    congr 1
    congr 1
    have hkv : (if 0 < ((prefs.keyword_weights.filter
          (fun kw => PreferenceScorer.inStr (PreferenceScorer.lowerS kw.1)
            (PreferenceScorer.lowerS text))).map (·.2)).sum then
        min ((prefs.keyword_weights.filter
          (fun kw => PreferenceScorer.inStr (PreferenceScorer.lowerS kw.1)
            (PreferenceScorer.lowerS text))).map (·.2)).sum 2 else 0)
        = min ((prefs.keyword_weights.filter
          (fun kw => PreferenceScorer.inStr (PreferenceScorer.lowerS kw.1)
            (PreferenceScorer.lowerS text))).map (·.2)).sum 2 := by
      rcases eq_or_lt_of_le hknn with heq | hlt
      · rw [← heq]; norm_num
      · rw [if_pos hlt]
    rw [hkv]
    generalize PreferenceScorer.classify_topics prefs.topic_clusters
      (PreferenceScorer.lowerS text) = MT
    have hts : (MT.map (fun t =>
        if (prefs.preferred.map PreferenceScorer.lowerS).contains (PreferenceScorer.lowerS t) then (1:ℚ)
        else if (prefs.avoid.map PreferenceScorer.lowerS).contains (PreferenceScorer.lowerS t) then -(3/2) else 0)).sum
        = ((MT.filter (fun t =>
            (prefs.preferred.map PreferenceScorer.lowerS).contains (PreferenceScorer.lowerS t))).length : ℚ)
          - (3/2) * ((MT.filter (fun t =>
            (prefs.avoid.map PreferenceScorer.lowerS).contains (PreferenceScorer.lowerS t))).length : ℚ) := by
      induction MT with
      | nil => simp
      | cons t ts ih =>
        by_cases hp : ((prefs.preferred.map PreferenceScorer.lowerS).contains
            (PreferenceScorer.lowerS t) = true)
        · have ha : ¬ ((prefs.avoid.map PreferenceScorer.lowerS).contains
              (PreferenceScorer.lowerS t) = true) := fun h => hdisj t ⟨hp, h⟩
          simp only [List.map_cons, List.sum_cons, List.filter_cons, hp, ha,
            if_true, if_false, ite_true, ite_false, decide_True, decide_False]
          rw [ih]
          push_cast [List.length_cons]
          ring
        · by_cases ha : ((prefs.avoid.map PreferenceScorer.lowerS).contains
              (PreferenceScorer.lowerS t) = true)
          · simp only [List.map_cons, List.sum_cons, List.filter_cons, hp, ha,
              if_true, if_false, ite_true, ite_false, decide_True, decide_False]
            rw [ih]
            push_cast [List.length_cons]
            ring
          · simp only [List.map_cons, List.sum_cons, List.filter_cons, hp, ha,
              if_true, if_false, ite_true, ite_false, decide_True, decide_False]
            rw [ih]
            push_cast [List.length_cons]
            ring
    rw [hts]
    split_ifs <;> ring

/-! ## Theorems — Mix Planner -/

namespace MixPlanner

/-- The minute-of-day written back by a push is exactly the pushed time. -/
theorem timeOf_push (x : PlanItem) (nt : ℤ) :
    timeOf { x with scheduled_hour := nt.ediv 60, scheduled_minute := nt.emod 60 } = nt := by
  simp only [timeOf]
  rw [mul_comm]
  exact Int.ediv_add_emod nt 60

/-- The `_enforce_min_interval` sweep: its output is chained at least
`MIN_INTERVAL_MINUTES` apart, and its first element is no earlier than
`prev + MIN_INTERVAL_MINUTES`. -/
theorem enforceAux_spec (l : List PlanItem) : ∀ prev : ℤ,
    List.Chain' (fun a b => MIN_INTERVAL_MINUTES ≤ timeOf b - timeOf a) (enforceAux prev l)
    ∧ ∀ y, (enforceAux prev l).head? = some y → prev + MIN_INTERVAL_MINUTES ≤ timeOf y := by
  induction l with
  | nil => intro prev; exact ⟨List.chain'_nil, fun y hy => Option.noConfusion hy⟩
  | cons x xs ih =>
    intro prev
    simp only [enforceAux]
    split
    · -- pushed to prev + MIN_INTERVAL_MINUTES
      have hx' := timeOf_push x (prev + MIN_INTERVAL_MINUTES)
      have ih' := ih (prev + MIN_INTERVAL_MINUTES)
      constructor
      · cases hrec : enforceAux (prev + MIN_INTERVAL_MINUTES) xs with
        | nil => simp
        | cons y ys =>
          rw [hrec] at ih'
          rw [List.chain'_cons]
          refine ⟨?_, ih'.1⟩
          have hy := ih'.2 y rfl
          rw [hx']
          omega
      · intro y hy
        simp only [List.head?_cons, Option.some.injEq] at hy
        rw [← hy, hx']
    · -- untouched: already far enough
      next hfar =>
      have ih' := ih (timeOf x)
      constructor
      · cases hrec : enforceAux (timeOf x) xs with
        | nil => simp
        | cons y ys =>
          rw [hrec] at ih'
          rw [List.chain'_cons]
          refine ⟨?_, ih'.1⟩
          have hy := ih'.2 y rfl
          simp only [MIN_INTERVAL_MINUTES] at hy ⊢
          omega
      · intro y hy
        simp only [List.head?_cons, Option.some.injEq] at hy
        subst hy
        simp only [MIN_INTERVAL_MINUTES] at hfar ⊢
        omega

/-- The whole interval sweep yields a plan with consecutive scheduled
minute-of-day gaps of at least `MIN_INTERVAL_MINUTES`. -/
theorem enforce_chain (l : List PlanItem) :
    List.Chain' (fun a b => MIN_INTERVAL_MINUTES ≤ timeOf b - timeOf a)
      (enforce_min_interval l) := by
  cases l with
  | nil => exact List.chain'_nil
  | cons x xs =>
    simp only [enforce_min_interval]
    have h := enforceAux_spec xs (timeOf x)
    cases hrec : enforceAux (timeOf x) xs with
    | nil => simp
    | cons y ys =>
      rw [hrec] at h
      rw [List.chain'_cons]
      refine ⟨?_, h.1⟩
      have hy := h.2 y rfl
      omega

/-- The sweep only moves times: the type sequence is unchanged. -/
theorem typesOf_enforceAux (l : List PlanItem) : ∀ prev,
    typesOf (enforceAux prev l) = typesOf l := by
  induction l with
  | nil => intro prev; rfl
  | cons x xs ih =>
    intro prev
    simp only [enforceAux]
    split <;> simp only [typesOf, List.map_cons] <;>
      exact congrArg (fun ts => _ :: ts) (ih _)

/-- The `_enforce_min_interval` preserves the type sequence. -/
theorem typesOf_enforce (l : List PlanItem) :
    typesOf (enforce_min_interval l) = typesOf l := by
  cases l with
  | nil => rfl
  | cons x xs =>
    simp only [enforce_min_interval, typesOf, List.map_cons]
    exact congrArg (fun ts => _ :: ts) (typesOf_enforceAux xs (timeOf x))

/-- Jitter only moves times: the type sequence is unchanged. -/
theorem typesOf_randomizeGo (jf : ℕ → ℤ) (l : List PlanItem) : ∀ i,
    typesOf (randomizeGo jf i l) = typesOf l := by
  induction l with
  | nil => intro i; rfl
  | cons x xs ih =>
    intro i
    simp only [randomizeGo, typesOf, List.map_cons]
    exact congrArg (fun ts => _ :: ts) (ih (i + 1))

/-- Length of the all-`quote_rt` suffix of a type sequence. -/
def trailingQuotes (ts : List String) : ℕ :=
  (ts.reverse.takeWhile (fun t => t == "quote_rt")).length

/-- Appending one slot type either extends the quote suffix or resets it. -/
theorem trailingQuotes_append_one (ts : List String) (t : String) :
    trailingQuotes (ts ++ [t]) =
      if t == "quote_rt" then trailingQuotes ts + 1 else 0 := by
  unfold trailingQuotes
  rw [List.reverse_append]
  cases ht : (t == "quote_rt") <;> simp [List.takeWhile, ht]

/-- A `takeWhile` is at least `m` long exactly when the list is and its
first `m` elements all satisfy the predicate. -/
theorem le_takeWhile_length_iff {α : Type} (p : α → Bool) (l : List α) : ∀ (m : ℕ),
    m ≤ (l.takeWhile p).length ↔ m ≤ l.length ∧ ∀ x ∈ l.take m, p x = true := by
  induction l with
  | nil => intro m; cases m <;> simp
  | cons a t ih =>
    intro m
    cases hpa : p a
    · cases m with
      | zero => simp
      | succ k => simp [List.takeWhile, hpa]
    · cases m with
      | zero => simp
      | succ k =>
        simp [List.takeWhile, hpa, Nat.succ_le_succ_iff, ih k]

end MixPlanner

namespace MixPlanner

/-- For `m ≥ 1`, `plan[-m:]` is the reversal of the first `m` elements of
the reversed type list. -/
theorem pyTailTypes_eq (m : ℕ) (hm : 1 ≤ m) (plan : List PlanItem) :
    pyTailTypes m plan = ((typesOf plan).reverse.take m).reverse := by
  unfold pyTailTypes
  rw [if_neg (by omega : ¬ m = 0)]
  have h := List.reverse_take (l := (typesOf plan).reverse) (n := m)
  rw [List.reverse_reverse, List.length_reverse] at h
  rw [h]
  simp [typesOf]

/-- When the consecutive-quote guard does not fire, the current plan's
quote suffix is strictly shorter than the cap. -/
theorem guard_false_trailing_lt (m : ℕ) (hm : 1 ≤ m) (plan : List PlanItem)
    (hg : ¬ ((pyTailTypes m plan ≠ [] ∧ ∀ t ∈ pyTailTypes m plan, t = "quote_rt")
             ∧ m ≤ (pyTailTypes m plan).length)) :
    trailingQuotes (typesOf plan) < m := by
  by_contra hc
  push_neg at hc
  apply hg
  have hle : m ≤ ((typesOf plan).reverse.takeWhile (fun t => t == "quote_rt")).length := hc
  obtain ⟨hlen, hall⟩ := (le_takeWhile_length_iff (fun t => t == "quote_rt")
    ((typesOf plan).reverse) m).1 hle
  rw [List.length_reverse] at hlen
  have hpt := pyTailTypes_eq m hm plan
  have hlen2 : (pyTailTypes m plan).length = m := by
    rw [hpt, List.length_reverse, List.length_take, List.length_reverse]
    omega
  refine ⟨⟨?_, ?_⟩, ?_⟩
  · intro hnil
    rw [hnil] at hlen2
    simp at hlen2
    omega
  · intro t ht
    rw [hpt, List.mem_reverse] at ht
    exact eq_of_beq (hall t ht)
  · omega

/-- Every prefix of the type sequence keeps its quote suffix within the
cap. -/
def prefixBound (m : ℕ) (ts : List String) : Prop :=
  ∀ p, p <+: ts → trailingQuotes p ≤ m

/-- Every assigned type is `original` or `quote_rt`. -/
def typesOk (ts : List String) : Prop :=
  ∀ t ∈ ts, t = "original" ∨ t = "quote_rt"

/-- One `_assign_types` step preserves both invariants. -/
theorem assignStep_inv (m : ℕ) (hm : 1 ≤ m) (mq : ℤ)
    (st : List PlanItem × ℕ × ℕ) (s : Slot)
    (h1 : prefixBound m (typesOf st.1)) (h2 : typesOk (typesOf st.1)) :
    prefixBound m (typesOf (assignStep m mq st s).1)
    ∧ typesOk (typesOf (assignStep m mq st s).1) := by
  obtain ⟨acc, qc, oc⟩ := st
  by_cases hg : ((pyTailTypes m acc ≠ [] ∧ ∀ t ∈ pyTailTypes m acc, t = "quote_rt")
      ∧ m ≤ (pyTailTypes m acc).length)
  · have hts : typesOf (assignStep m mq (acc, qc, oc) s).1 = typesOf acc ++ ["original"] := by
      simp only [assignStep]
      rw [if_pos hg]
      simp [typesOf]
    constructor
    · intro p hp
      rw [hts] at hp
      rcases List.prefix_concat_iff.1 hp with heq | hpre
      · rw [heq, trailingQuotes_append_one]
        simp
      · exact h1 p hpre
    · intro t ht
      rw [hts] at ht
      rcases List.mem_append.1 ht with h | h
      · exact h2 t h
      · left; simpa using h
  · by_cases hp2 : ("quote_rt" ∈ s.type_pool ∧ (qc : ℤ) < mq)
    · have hts : typesOf (assignStep m mq (acc, qc, oc) s).1 = typesOf acc ++ ["quote_rt"] := by
        simp only [assignStep]
        rw [if_neg hg, if_pos hp2]
        simp [typesOf]
      have htr : trailingQuotes (typesOf acc) < m := guard_false_trailing_lt m hm acc hg
      constructor
      · intro p hp
        rw [hts] at hp
        rcases List.prefix_concat_iff.1 hp with heq | hpre
        · rw [heq, trailingQuotes_append_one]
          simp only [beq_self_eq_true, if_true]
          omega
        · exact h1 p hpre
      · intro t ht
        rw [hts] at ht
        rcases List.mem_append.1 ht with h | h
        · exact h2 t h
        · right; simpa using h
    · have hts : typesOf (assignStep m mq (acc, qc, oc) s).1 = typesOf acc ++ ["original"] := by
        simp only [assignStep]
        rw [if_neg hg, if_neg hp2]
        simp [typesOf]
      constructor
      · intro p hp
        rw [hts] at hp
        rcases List.prefix_concat_iff.1 hp with heq | hpre
        · rw [heq, trailingQuotes_append_one]
          simp
        · exact h1 p hpre
      · intro t ht
        rw [hts] at ht
        rcases List.mem_append.1 ht with h | h
        · exact h2 t h
        · left; simpa using h

/-- The whole `_assign_types` fold preserves both invariants. -/
theorem assign_fold_inv (m : ℕ) (hm : 1 ≤ m) (mq : ℤ) (slots : List Slot) :
    ∀ st, prefixBound m (typesOf st.1) → typesOk (typesOf st.1) →
      prefixBound m (typesOf (slots.foldl (assignStep m mq) st).1)
      ∧ typesOk (typesOf (slots.foldl (assignStep m mq) st).1) := by
  induction slots with
  | nil => intro st h1 h2; exact ⟨h1, h2⟩
  | cons s ss ih =>
    intro st h1 h2
    simp only [List.foldl_cons]
    obtain ⟨h1b, h2b⟩ := assignStep_inv m hm mq st s h1 h2
    exact ih _ h1b h2b

/-- The `_assign_types` output satisfies both invariants. -/
theorem assign_types_inv (m : ℕ) (hm : 1 ≤ m) (ρ : ℚ) (slots : List Slot) (aq : ℕ) :
    prefixBound m (typesOf (assign_types m ρ slots aq))
    ∧ typesOk (typesOf (assign_types m ρ slots aq)) := by
  unfold assign_types
  apply assign_fold_inv m hm _ slots ([], 0, 0)
  · intro p hp
    have hp0 : p = [] := List.prefix_nil.1 hp
    subst hp0
    exact Nat.zero_le m
  · intro t ht
    exact absurd ht (List.not_mem_nil t)

/-- The `takeWhile` runs straight through an all-true block. -/
theorem takeWhile_append_all {α : Type} (p : α → Bool) (l1 l2 : List α)
    (h : ∀ x ∈ l1, p x = true) :
    (l1 ++ l2).takeWhile p = l1 ++ l2.takeWhile p := by
  induction l1 with
  | nil => simp
  | cons a t ih =>
    have ha : p a = true := h a (by simp)
    simp only [List.cons_append, List.takeWhile, ha, List.append_eq]
    rw [ih (fun x hx => h x (by simp [hx]))]

/-- A type sequence whose prefixes all keep the quote suffix ≤ `m` has an
`original` in every window of `m + 1` consecutive slots. -/
theorem window_has_original (m : ℕ) (ts : List String)
    (hpref : prefixBound m ts) (hty : typesOk ts) :
    ∀ w, w <:+: ts → w.length = m + 1 → ∃ t ∈ w, t = "original" := by
  intro w hw hlen
  by_contra hno
  push_neg at hno
  have hallq : ∀ t ∈ w, (t == "quote_rt") = true := by
    intro t ht
    rcases hty t (hw.subset ht) with h | h
    · exact absurd h (hno t ht)
    · simp [h]
  obtain ⟨a, b, hab⟩ := hw
  have hpre : a ++ w <+: ts := ⟨b, by rw [← hab, List.append_assoc]⟩
  have hbound := hpref (a ++ w) hpre
  have htr : w.length ≤ trailingQuotes (a ++ w) := by
    unfold trailingQuotes
    rw [List.reverse_append]
    rw [takeWhile_append_all _ _ _ (fun x hx => hallq x (List.mem_reverse.1 hx))]
    rw [List.length_append, List.length_reverse]
    omega
  omega

end MixPlanner

/-- C2 — every plan produced by the Mix Planner's
assign–jitter–enforce pipeline (for any selected slot list, any jitter
draws, any available-quote budget, any quote-ratio cap, and any
consecutive cap `m ≥ 1`) has consecutive scheduled minute-of-day gaps of
at least `MIN_INTERVAL_MINUTES`, and every window of `m + 1` consecutive
slots contains an `original`. -/
theorem MixPlanner.plan_daily_core_spec (m : ℕ) (hm : 1 ≤ m) (ρ : ℚ)
    (slots : List MixPlanner.Slot) (aq : ℕ) (jf : ℕ → ℤ) :
    List.Chain' (fun a b =>
        MixPlanner.MIN_INTERVAL_MINUTES ≤ MixPlanner.timeOf b - MixPlanner.timeOf a)
      (MixPlanner.plan_daily_core m ρ slots aq jf)
    ∧ ∀ w, w <:+: MixPlanner.typesOf (MixPlanner.plan_daily_core m ρ slots aq jf) →
        w.length = m + 1 → ∃ t ∈ w, t = "original" := by
  constructor
  · unfold MixPlanner.plan_daily_core
    exact MixPlanner.enforce_chain _
  · have hT : MixPlanner.typesOf (MixPlanner.plan_daily_core m ρ slots aq jf)
        = MixPlanner.typesOf (MixPlanner.assign_types m ρ slots aq) := by
      unfold MixPlanner.plan_daily_core MixPlanner.randomize_times
      rw [MixPlanner.typesOf_enforce, MixPlanner.typesOf_randomizeGo]
    rw [hT]
    obtain ⟨h1, h2⟩ := MixPlanner.assign_types_inv m hm ρ slots aq
    exact MixPlanner.window_has_original m _ h1 h2

/-- C2 witness: the default 10-slot roster with the source's default caps
(`max_consecutive_quotes = 2`, ratio 0.7), zero jitter, 10 available
quotes. -/
theorem MixPlanner.plan_daily_core_spec_witness :
    List.Chain' (fun a b =>
        MixPlanner.MIN_INTERVAL_MINUTES ≤ MixPlanner.timeOf b - MixPlanner.timeOf a)
      (MixPlanner.plan_daily_core 2 (7/10) MixPlanner.DEFAULT_SLOTS 10 (fun _ => 0))
    ∧ ∀ w, w <:+: MixPlanner.typesOf
        (MixPlanner.plan_daily_core 2 (7/10) MixPlanner.DEFAULT_SLOTS 10 (fun _ => 0)) →
        w.length = 2 + 1 → ∃ t ∈ w, t = "original" :=
  MixPlanner.plan_daily_core_spec 2 (by norm_num) (7/10) MixPlanner.DEFAULT_SLOTS 10 (fun _ => 0)

/-! ## Theorems — PDCA Updater -/

/-- The `roundTo 1` is monotone. -/
theorem roundTo1_mono {a b : ℚ} (h : a ≤ b) : roundTo 1 a ≤ roundTo 1 b := by
  unfold roundTo
  have hr : round (a * 10 ^ 1) ≤ round (b * 10 ^ 1) := by
    rw [round_eq, round_eq]
    apply Int.floor_le_floor
    have : a * 10 ^ 1 ≤ b * 10 ^ 1 := by nlinarith
    linarith
  have hc : ((round (a * 10 ^ 1) : ℤ) : ℚ) ≤ ((round (b * 10 ^ 1) : ℤ) : ℚ) :=
    Int.cast_le.2 hr
  have hp : (0:ℚ) < 10 ^ 1 := by norm_num
  exact (div_le_div_right hp).2 hc

/-- The `roundTo 1` moves its argument by at most `1/20`. -/
theorem abs_roundTo1_sub (q : ℚ) : |roundTo 1 q - q| ≤ 1/20 := by
  unfold roundTo
  have h := abs_sub_round (q * 10 ^ 1)
  rw [abs_sub_comm] at h
  have h2 : ((round (q * 10 ^ 1) : ℤ) : ℚ) / 10 ^ 1 - q
      = (((round (q * 10 ^ 1) : ℤ) : ℚ) - q * 10 ^ 1) / 10 ^ 1 := by ring
  rw [h2, abs_div]
  have h3 : |(10:ℚ) ^ 1| = 10 ^ 1 := abs_of_pos (by norm_num)
  rw [h3]
  rw [div_le_iff (by norm_num : (0:ℚ) < 10 ^ 1)]
  calc |((round (q * 10 ^ 1) : ℤ) : ℚ) - q * 10 ^ 1| ≤ 1/2 := h
  _ ≤ 1/20 * 10 ^ 1 := by norm_num

/-- The `roundTo 1 0 = 0`. -/
theorem roundTo1_zero : roundTo 1 (0:ℚ) = 0 := by
  norm_num [roundTo]

/-- The `roundTo 1 3 = 3`. -/
theorem roundTo1_three : roundTo 1 (3:ℚ) = 3 := by
  have h : round ((3:ℚ) * 10 ^ 1) = 30 := by
    rw [round_eq]
    norm_num
  unfold roundTo
  rw [h]
  norm_num

namespace PreferenceUpdater

/-- The value a boost writes for the processed keyword, as a function of
the current weight. -/
def boostVal (c : ℚ) : ℚ :=
  if min (c + 1/5) (min (c + MAX_WEIGHT_CHANGE) 3) ≠ c then
    roundTo 1 (min (c + 1/5) (min (c + MAX_WEIGHT_CHANGE) 3))
  else c

/-- The value a reduce writes for the processed keyword. -/
def reduceVal (c : ℚ) : ℚ :=
  if max (c - 3/10) (max (c - MAX_WEIGHT_CHANGE) 0) ≠ c then
    roundTo 1 (max (c - 3/10) (max (c - MAX_WEIGHT_CHANGE) 0))
  else c

/-- A boost moves a weight in `[0, 3]` by at most `MAX_WEIGHT_CHANGE` and
keeps it in `[0, 3]`. -/
theorem boostVal_spec (c : ℚ) (h0 : 0 ≤ c) (h3 : c ≤ 3) :
    |boostVal c - c| ≤ MAX_WEIGHT_CHANGE ∧ 0 ≤ boostVal c ∧ boostVal c ≤ 3 := by
  unfold boostVal MAX_WEIGHT_CHANGE
  split
  · set nv := min (c + 1/5) (min (c + 1/2) 3) with hnv
    have hnv1 : c ≤ nv := le_min (by linarith) (le_min (by linarith) (by linarith))
    have hnv2 : nv ≤ c + 1/5 := min_le_left _ _
    have hnv0 : 0 ≤ nv := le_trans h0 hnv1
    have hnv3 : nv ≤ 3 := le_trans (min_le_right _ _) (min_le_right _ _)
    have hr := abs_roundTo1_sub nv
    have hlo : roundTo 1 nv ≤ 3 := by
      calc roundTo 1 nv ≤ roundTo 1 3 := roundTo1_mono hnv3
      _ = 3 := roundTo1_three
    have hhi : 0 ≤ roundTo 1 nv := by
      calc (0:ℚ) = roundTo 1 0 := roundTo1_zero.symm
      _ ≤ roundTo 1 nv := roundTo1_mono hnv0
    refine ⟨?_, hhi, hlo⟩
    have habs := abs_sub_le (roundTo 1 nv) nv c
    have h1 : |nv - c| ≤ 1/5 := by
      rw [abs_of_nonneg (by linarith)]
      linarith
    calc |roundTo 1 nv - c| ≤ |roundTo 1 nv - nv| + |nv - c| := habs
    _ ≤ 1/20 + 1/5 := add_le_add hr h1
    _ ≤ 1/2 := by norm_num
  · exact ⟨by simp, h0, h3⟩

/-- A reduce moves a weight in `[0, 3]` by at most `MAX_WEIGHT_CHANGE` and
keeps it in `[0, 3]`. -/
theorem reduceVal_spec (c : ℚ) (h0 : 0 ≤ c) (h3 : c ≤ 3) :
    |reduceVal c - c| ≤ MAX_WEIGHT_CHANGE ∧ 0 ≤ reduceVal c ∧ reduceVal c ≤ 3 := by
  unfold reduceVal MAX_WEIGHT_CHANGE
  split
  · set nv := max (c - 3/10) (max (c - 1/2) 0) with hnv
    have hnv1 : nv ≤ c := max_le (by linarith) (max_le (by linarith) h0)
    have hnv2 : c - 3/10 ≤ nv := le_max_left _ _
    have hnv0 : 0 ≤ nv :=
      le_trans (le_max_right (c - 1/2) 0) (le_max_right (c - 3/10) (max (c - 1/2) 0))
    have hnv3 : nv ≤ 3 := le_trans hnv1 h3
    have hr := abs_roundTo1_sub nv
    have hlo : roundTo 1 nv ≤ 3 := by
      calc roundTo 1 nv ≤ roundTo 1 3 := roundTo1_mono hnv3
      _ = 3 := roundTo1_three
    have hhi : 0 ≤ roundTo 1 nv := by
      calc (0:ℚ) = roundTo 1 0 := roundTo1_zero.symm
      _ ≤ roundTo 1 nv := roundTo1_mono hnv0
    refine ⟨?_, hhi, hlo⟩
    have habs := abs_sub_le (roundTo 1 nv) nv c
    have h1 : |nv - c| ≤ 3/10 := by
      rw [abs_of_nonpos (by linarith)]
      linarith
    calc |roundTo 1 nv - c| ≤ |roundTo 1 nv - nv| + |nv - c| := habs
    _ ≤ 1/20 + 3/10 := add_le_add hr h1
    _ ≤ 1/2 := by norm_num
  · exact ⟨by simp, h0, h3⟩

end PreferenceUpdater

namespace PreferenceUpdater

/-- Writing a key then reading it back. -/
theorem getWeight_setWeight_same (m : List (String × ℚ)) (k : String) (v : ℚ) :
    getWeight (setWeight m k v) k = v := by
  induction m with
  | nil => simp [setWeight, getWeight, List.find?]
  | cons p rest ih =>
    obtain ⟨k', v'⟩ := p
    simp only [setWeight]
    by_cases hk : k' = k
    · rw [if_pos hk]
      subst hk
      simp [getWeight, List.find?]
    · rw [if_neg hk]
      simp only [getWeight, List.find?]
      rw [show (decide (k' = k)) = false from decide_eq_false hk]
      exact ih

/-- Writing one key leaves every other key's weight unchanged. -/
theorem getWeight_setWeight_other (m : List (String × ℚ)) (k k2 : String) (v : ℚ)
    (h : k2 ≠ k) :
    getWeight (setWeight m k v) k2 = getWeight m k2 := by
  induction m with
  | nil =>
    simp only [setWeight, getWeight, List.find?]
    rw [show (decide (k = k2)) = false from decide_eq_false (fun hh => h hh.symm)]
  | cons p rest ih =>
    obtain ⟨k', v'⟩ := p
    simp only [setWeight]
    by_cases hk : k' = k
    · rw [if_pos hk]
      subst hk
      simp only [getWeight, List.find?]
      rw [show (decide (k' = k2)) = false from decide_eq_false (fun hh => h hh.symm)]
    · rw [if_neg hk]
      simp only [getWeight, List.find?]
      cases hd : decide (k' = k2)
      · simp only [hd]
        exact ih
      · simp only [hd]

/-- Every entry of `setWeight m k v` is either the written pair or an
original entry. -/
theorem mem_setWeight (m : List (String × ℚ)) (k : String) (v : ℚ) :
    ∀ p ∈ setWeight m k v, p.2 = v ∨ p ∈ m := by
  induction m with
  | nil => intro p hp; simp [setWeight] at hp; subst hp; left; rfl
  | cons q rest ih =>
    obtain ⟨k', v'⟩ := q
    intro p hp
    simp only [setWeight] at hp
    by_cases hk : k' = k
    · rw [if_pos hk] at hp
      rcases List.mem_cons.1 hp with h | h
      · subst h; left; rfl
      · right; exact List.mem_cons_of_mem _ h
    · rw [if_neg hk] at hp
      rcases List.mem_cons.1 hp with h | h
      · right; subst h; exact List.mem_cons_self _ _
      · rcases ih p h with h2 | h2
        · left; exact h2
        · right; exact List.mem_cons_of_mem _ h2

/-- All weights in `[0, 3]`. -/
def weightsInRange (m : List (String × ℚ)) : Prop :=
  ∀ p ∈ m, 0 ≤ p.2 ∧ p.2 ≤ 3

/-- A read from an in-range map (default 1.0 included) is in `[0, 3]`. -/
theorem getWeight_range (m : List (String × ℚ)) (k : String)
    (h : weightsInRange m) : 0 ≤ getWeight m k ∧ getWeight m k ≤ 3 := by
  unfold getWeight
  cases hf : m.find? (fun p => p.1 = k) with
  | none => norm_num
  | some p => exact h p (List.mem_of_find?_eq_some hf)

/-- The `boostStep` on the processed key computes `boostVal`. -/
theorem boostStep_getWeight_same (st : List (String × ℚ) × ℕ) (k : String) :
    getWeight (boostStep st k).1 k = boostVal (getWeight st.1 k) := by
  simp only [boostStep, boostVal, MAX_WEIGHT_CHANGE]
  split
  · exact getWeight_setWeight_same st.1 k _
  · rfl

/-- The `boostStep` leaves other keys unchanged. -/
theorem boostStep_getWeight_other (st : List (String × ℚ) × ℕ) (k k2 : String)
    (h : k2 ≠ k) :
    getWeight (boostStep st k).1 k2 = getWeight st.1 k2 := by
  simp only [boostStep]
  split
  · exact getWeight_setWeight_other st.1 k k2 _ h
  · rfl

/-- The `reduceStep` on the processed key computes `reduceVal`. -/
theorem reduceStep_getWeight_same (st : List (String × ℚ) × ℕ) (k : String) :
    getWeight (reduceStep st k).1 k = reduceVal (getWeight st.1 k) := by
  simp only [reduceStep, reduceVal, MAX_WEIGHT_CHANGE]
  split
  · exact getWeight_setWeight_same st.1 k _
  · rfl

/-- The `reduceStep` leaves other keys unchanged. -/
theorem reduceStep_getWeight_other (st : List (String × ℚ) × ℕ) (k k2 : String)
    (h : k2 ≠ k) :
    getWeight (reduceStep st k).1 k2 = getWeight st.1 k2 := by
  simp only [reduceStep]
  split
  · exact getWeight_setWeight_other st.1 k k2 _ h
  · rfl

/-- The `boostStep` keeps all stored weights in range. -/
theorem boostStep_range (st : List (String × ℚ) × ℕ) (k : String)
    (h : weightsInRange st.1) : weightsInRange (boostStep st k).1 := by
  have hc := getWeight_range st.1 k h
  have hb := boostVal_spec (getWeight st.1 k) hc.1 hc.2
  simp only [boostStep]
  split
  · intro p hp
    rcases mem_setWeight st.1 k _ p hp with h2 | h2
    · rw [h2]
      have hx := hb.2
      simp only [boostVal, MAX_WEIGHT_CHANGE] at hx
      rw [if_pos (by assumption)] at hx
      exact hx
    · exact h p h2
  · exact h

/-- The `reduceStep` keeps all stored weights in range. -/
theorem reduceStep_range (st : List (String × ℚ) × ℕ) (k : String)
    (h : weightsInRange st.1) : weightsInRange (reduceStep st k).1 := by
  have hc := getWeight_range st.1 k h
  have hb := reduceVal_spec (getWeight st.1 k) hc.1 hc.2
  simp only [reduceStep]
  split
  · intro p hp
    rcases mem_setWeight st.1 k _ p hp with h2 | h2
    · rw [h2]
      have hx := hb.2
      simp only [reduceVal, MAX_WEIGHT_CHANGE] at hx
      rw [if_pos (by assumption)] at hx
      exact hx
    · exact h p h2
  · exact h

end PreferenceUpdater

namespace PreferenceUpdater

/-- The whole boost fold keeps every stored weight in `[0, 3]`. -/
theorem boost_fold_range (ks : List String) :
    ∀ st, weightsInRange st.1 → weightsInRange ((ks.foldl boostStep st).1) := by
  induction ks with
  | nil => intro st h; exact h
  | cons a t ih =>
    intro st h
    simp only [List.foldl_cons]
    exact ih _ (boostStep_range st a h)

/-- The whole reduce fold keeps every stored weight in `[0, 3]`. -/
theorem reduce_fold_range (ks : List String) :
    ∀ st, weightsInRange st.1 → weightsInRange ((ks.foldl reduceStep st).1) := by
  induction ks with
  | nil => intro st h; exact h
  | cons a t ih =>
    intro st h
    simp only [List.foldl_cons]
    exact ih _ (reduceStep_range st a h)

/-- Per-key effect of the boost fold over distinct keywords. -/
theorem boost_fold_getWeight (ks : List String) :
    ∀ st (k : String), ks.Nodup →
      getWeight ((ks.foldl boostStep st).1) k
        = if k ∈ ks then boostVal (getWeight st.1 k) else getWeight st.1 k := by
  induction ks with
  | nil => intro st k _; simp
  | cons a t ih =>
    intro st k hnd
    obtain ⟨hna, hndt⟩ := List.nodup_cons.1 hnd
    simp only [List.foldl_cons]
    by_cases hk : k = a
    · subst hk
      rw [ih _ k hndt, if_neg (fun hmem => hna hmem), boostStep_getWeight_same,
          if_pos (List.mem_cons_self k t)]
    · rw [ih _ k hndt, boostStep_getWeight_other st a k hk]
      by_cases hm : k ∈ t
      · rw [if_pos hm, if_pos (List.mem_cons_of_mem _ hm)]
      · rw [if_neg hm, if_neg (by simp [hk, hm])]

/-- Per-key effect of the reduce fold over distinct keywords. -/
theorem reduce_fold_getWeight (ks : List String) :
    ∀ st (k : String), ks.Nodup →
      getWeight ((ks.foldl reduceStep st).1) k
        = if k ∈ ks then reduceVal (getWeight st.1 k) else getWeight st.1 k := by
  induction ks with
  | nil => intro st k _; simp
  | cons a t ih =>
    intro st k hnd
    obtain ⟨hna, hndt⟩ := List.nodup_cons.1 hnd
    simp only [List.foldl_cons]
    by_cases hk : k = a
    · subst hk
      rw [ih _ k hndt, if_neg (fun hmem => hna hmem), reduceStep_getWeight_same,
          if_pos (List.mem_cons_self k t)]
    · rw [ih _ k hndt, reduceStep_getWeight_other st a k hk]
      by_cases hm : k ∈ t
      · rw [if_pos hm, if_pos (List.mem_cons_of_mem _ hm)]
      · rw [if_neg hm, if_neg (by simp [hk, hm])]

/-- Insertion keeps the multiset of elements. -/
theorem insertBy_perm {α : Type} (le : α → α → Bool) (x : α) (l : List α) :
    (insertBy le x l).Perm (x :: l) := by
  induction l with
  | nil => exact List.Perm.refl _
  | cons y ys ih =>
    simp only [insertBy]
    split
    · exact List.Perm.refl _
    · exact (List.Perm.cons y ih).trans (List.Perm.swap x y ys)

/-- The `sortBy` is a permutation. -/
theorem sortBy_perm {α : Type} (le : α → α → Bool) (l : List α) :
    (sortBy le l).Perm l := by
  induction l with
  | nil => exact List.Perm.refl _
  | cons a t ih =>
    simp only [sortBy, List.foldr_cons]
    exact (insertBy_perm le a _).trans (List.Perm.cons a ih)

end PreferenceUpdater

namespace PreferenceUpdater

/-- In a map with distinct keys, membership with equal keys forces equal
entries. -/
theorem eq_of_mem_of_fst_eq {β : Type} (m : List (String × β))
    (hnd : (m.map Prod.fst).Nodup) :
    ∀ p ∈ m, ∀ q ∈ m, p.1 = q.1 → p = q := by
  induction m with
  | nil => intro p hp; exact absurd hp (List.not_mem_nil p)
  | cons a t ih =>
    intro p hp q hq hpq
    have hnd' : (a.1 :: t.map Prod.fst).Nodup := by simpa using hnd
    obtain ⟨hna, hndt⟩ := List.nodup_cons.1 hnd'
    rcases List.mem_cons.1 hp with hp1 | hp1 <;> rcases List.mem_cons.1 hq with hq1 | hq1
    · rw [hp1, hq1]
    · subst hp1
      exact absurd (hpq ▸ List.mem_map_of_mem Prod.fst hq1) hna
    · subst hq1
      exact absurd (hpq ▸ List.mem_map_of_mem Prod.fst hp1) hna
    · exact ih hndt p hp1 q hq1 hpq

/-- The names of a key-preserving `filterMap` form a sublist of the keys. -/
theorem names_sublist (m : List (String × PairStat))
    (f : String × PairStat → Option RecEntry)
    (hf : ∀ kv e, f kv = some e → e.name = kv.1) :
    ((m.filterMap f).map (·.name)).Sublist (m.map Prod.fst) := by
  induction m with
  | nil => simp
  | cons kv t ih =>
    rw [List.filterMap_cons]
    cases hfa : f kv with
    | none =>
      simp only [List.map_cons]
      exact ih.trans (List.sublist_cons_self _ _)
    | some e =>
      simp only [List.map_cons]
      rw [hf kv e hfa]
      exact List.Sublist.cons₂ _ ih

/-- Promote-recommendation names are distinct when the stat keys are. -/
theorem promote_names_nodup (m : List (String × PairStat))
    (hnd : (m.map Prod.fst).Nodup) :
    ((promoteRecs m).map (·.name)).Nodup := by
  unfold promoteRecs
  refine (List.Perm.nodup_iff ((sortBy_perm _ _).map (fun e : RecEntry => e.name))).2 ?_
  apply List.Nodup.sublist _ hnd
  apply names_sublist
  intro kv e hfe
  split at hfe
  · simp only [Option.some.injEq] at hfe
    rw [← hfe]
  · exact Option.noConfusion hfe

/-- Demote-recommendation names are distinct when the stat keys are. -/
theorem demote_names_nodup (m : List (String × PairStat))
    (hnd : (m.map Prod.fst).Nodup) :
    ((demoteRecs m).map (·.name)).Nodup := by
  unfold demoteRecs
  refine (List.Perm.nodup_iff ((sortBy_perm _ _).map (fun e : RecEntry => e.name))).2 ?_
  apply List.Nodup.sublist _ hnd
  apply names_sublist
  intro kv e hfe
  split at hfe
  · simp only [Option.some.injEq] at hfe
    rw [← hfe]
  · exact Option.noConfusion hfe

/-- No keyword is both promoted and demoted in one cycle. -/
theorem promote_demote_disjoint (m : List (String × PairStat))
    (hnd : (m.map Prod.fst).Nodup) (k : String)
    (hB : k ∈ (promoteRecs m).map (·.name))
    (hR : k ∈ (demoteRecs m).map (·.name)) : False := by
  unfold promoteRecs at hB
  unfold demoteRecs at hR
  rw [List.mem_map] at hB hR
  obtain ⟨e1, he1, hk1⟩ := hB
  obtain ⟨e2, he2, hk2⟩ := hR
  have he1b := (sortBy_perm (fun a b : RecEntry => b.rate ≤ a.rate) _).mem_iff.1 he1
  have he2b := (sortBy_perm (fun a b : RecEntry => a.rate ≤ b.rate) _).mem_iff.1 he2
  obtain ⟨kv1, hkv1, hf1⟩ := List.mem_filterMap.1 he1b
  obtain ⟨kv2, hkv2, hf2⟩ := List.mem_filterMap.1 he2b
  split at hf1
  case isFalse => exact Option.noConfusion hf1
  case isTrue hc1 =>
    split at hf2
    case isFalse => exact Option.noConfusion hf2
    case isTrue hc2 =>
      simp only [Option.some.injEq] at hf1 hf2
      rw [← hf1] at hk1
      rw [← hf2] at hk2
      have heq : kv1 = kv2 :=
        eq_of_mem_of_fst_eq m hnd kv1 hkv1 kv2 hkv2 (by rw [show kv1.1 = k from hk1, show kv2.1 = k from hk2])
      rw [heq] at hc1
      exact hc2.2.2 hc1.2

/-- C7 — an `auto_update` run on enough feedback bumps the version by
exactly one, keeps every keyword weight in `[0, 3]`, and moves no keyword
weight (absent keys defaulting to 1.0) by more than `MAX_WEIGHT_CHANGE`. -/
theorem auto_update_spec (stats : FeedbackStats) (prefs : PrefsDoc) (today : String)
    (htot : MIN_DECISIONS_FOR_ADJUST ≤ stats.total)
    (hrange : ∀ p ∈ prefs.keyword_weights, 0 ≤ p.2 ∧ p.2 ≤ 3)
    (hnd : (stats.by_keyword.map Prod.fst).Nodup) :
    (auto_update stats prefs today).1.version = prefs.version + 1
    ∧ (∀ p ∈ (auto_update stats prefs today).1.keyword_weights, 0 ≤ p.2 ∧ p.2 ≤ 3)
    ∧ ∀ k, |getWeight (auto_update stats prefs today).1.keyword_weights k
            - getWeight prefs.keyword_weights k| ≤ MAX_WEIGHT_CHANGE := by
  have hne : ¬ stats.total < MIN_DECISIONS_FOR_ADJUST := by omega
  have hkw : (auto_update stats prefs today).1.keyword_weights
      = ((((demoteRecs stats.by_keyword).map (·.name)).foldl reduceStep
          (((promoteRecs stats.by_keyword).map (·.name)).foldl boostStep
            (prefs.keyword_weights, 0)))).1 := by
    simp only [auto_update]
    rw [if_neg hne]
  have hv : (auto_update stats prefs today).1.version = prefs.version + 1 := by
    simp only [auto_update]
    rw [if_neg hne]
  refine ⟨hv, ?_, ?_⟩
  · rw [hkw]
    exact reduce_fold_range _ _ (boost_fold_range _ _ hrange)
  · intro k
    rw [hkw]
    have hndB := promote_names_nodup stats.by_keyword hnd
    have hndR := demote_names_nodup stats.by_keyword hnd
    rw [reduce_fold_getWeight _ _ k hndR, boost_fold_getWeight _ _ k hndB]
    have hc := getWeight_range prefs.keyword_weights k hrange
    by_cases hkB : k ∈ (promoteRecs stats.by_keyword).map (·.name) <;>
      by_cases hkR : k ∈ (demoteRecs stats.by_keyword).map (·.name)
    · exact (promote_demote_disjoint stats.by_keyword hnd k hkB hkR).elim
    · rw [if_pos hkB, if_neg hkR]
      exact (boostVal_spec _ hc.1 hc.2).1
    · rw [if_neg hkB, if_pos hkR]
      exact (reduceVal_spec _ hc.1 hc.2).1
    · rw [if_neg hkB, if_neg hkR]
      simp [MAX_WEIGHT_CHANGE]

end PreferenceUpdater

/-- C7 witness — scenario S5: weight 2.8 for "agent" at approval rate
0.95 over 20 decisions clamps to exactly 3.0 and the version goes 1 → 2;
the general bounds follow from the theorem at the same input. -/
theorem PreferenceUpdater.auto_update_spec_witness :
    (PreferenceUpdater.auto_update
        { total := 20, by_keyword := [("agent", { approved := 19, skipped := 1 })] }
        { keyword_weights := [("agent", 28/10)], version := 1 }
        "2026-10-12").1.keyword_weights = [("agent", 3)]
    ∧ (PreferenceUpdater.auto_update
        { total := 20, by_keyword := [("agent", { approved := 19, skipped := 1 })] }
        { keyword_weights := [("agent", 28/10)], version := 1 }
        "2026-10-12").1.version = 1 + 1
    ∧ ∀ k, |PreferenceUpdater.getWeight
          (PreferenceUpdater.auto_update
            { total := 20, by_keyword := [("agent", { approved := 19, skipped := 1 })] }
            { keyword_weights := [("agent", 28/10)], version := 1 }
            "2026-10-12").1.keyword_weights k
        - PreferenceUpdater.getWeight [("agent", 28/10)] k|
        ≤ PreferenceUpdater.MAX_WEIGHT_CHANGE := by
  have h := PreferenceUpdater.auto_update_spec
    { total := 20, by_keyword := [("agent", { approved := 19, skipped := 1 })] }
    { keyword_weights := [("agent", 28/10)], version := 1 }
    "2026-10-12"
    (by norm_num [PreferenceUpdater.MIN_DECISIONS_FOR_ADJUST])
    (by
      intro p hp
      simp only [List.mem_singleton] at hp
      subst hp
      constructor <;> norm_num)
    (by simp)
  refine ⟨?_, h.1, h.2.2⟩
  simp only [PreferenceUpdater.auto_update]
  rw [if_neg (by norm_num [PreferenceUpdater.MIN_DECISIONS_FOR_ADJUST])]
  norm_num [PreferenceUpdater.promoteRecs, PreferenceUpdater.demoteRecs,
    PreferenceUpdater.sortBy, PreferenceUpdater.insertBy,
    PreferenceUpdater.boostStep, PreferenceUpdater.reduceStep,
    PreferenceUpdater.getWeight, PreferenceUpdater.setWeight,
    PreferenceUpdater.MIN_DECISIONS_FOR_ADJUST, PreferenceUpdater.PROMOTE_THRESHOLD,
    PreferenceUpdater.DEMOTE_THRESHOLD, PreferenceUpdater.MAX_WEIGHT_CHANGE,
    List.find?, roundTo1_three, List.filterMap_cons, List.filterMap_nil,
    List.foldr_cons, List.foldr_nil, List.foldl_cons, List.foldl_nil,
    List.map_cons, List.map_nil]

/-- C6 witness: a concrete preference document with nonnegative weights
and disjoint topic lists, scored against the spec's reference
definition. -/
theorem PreferenceScorer.score_matches_spec_witness :
    PreferenceScorer.score
      { focus_keywords := ["agent"], preferred := ["tech"], avoid := [],
        boosted := ["sama"], keyword_weights := [("ai", 2)],
        topic_clusters := [("tech", ["coding", "agent"])] }
      "AI agents coding daily" "sama"
    = PreferenceScorer.score_spec
      { focus_keywords := ["agent"], preferred := ["tech"], avoid := [],
        boosted := ["sama"], keyword_weights := [("ai", 2)],
        topic_clusters := [("tech", ["coding", "agent"])] }
      "AI agents coding daily" "sama" := by
  apply PreferenceScorer.score_matches_spec
  · intro p hp
    simp only [List.mem_singleton] at hp
    subst hp
    norm_num
  · rintro t ⟨h1, h2⟩
    simp at h2
